import Mathlib

/-!
Verification of the i18n/language-implementation grader of the
companion-app backend (`functions/src/graders/languageGrader.js`, plus the
`FileScanner` utility's `analyzeI18nUsage`/`getLineNumber`).

The JavaScript sources are shallowly embedded below.  JSON-like runtime
values are modelled by the mutual inductive `JSValue`/`JSArr`/`JSObj`
(arrays and objects carry their elements/fields in order).  JavaScript
string/number coercion helpers (`split`, `trim`, `parseInt`,
`isNaN(Number(...))`, canonical array-index strings) are modelled as
functions over the character lists of Lean strings.  Scores use `ℚ` in
place of IEEE doubles.
-/

set_option maxHeartbeats 1000000

namespace LangGrader

/-- JavaScript whitespace as used by `\s`, `trim()`, `parseInt` skipping. -/
def jsIsSpace (c : Char) : Bool :=
  c = ' ' || c = '\t' || c = '\n' || c = '\r' || c = '\x0b' || c = '\x0c'

/-- Model of `s.split(sep)` for a single-character separator:
`splitCharAux sep cs acc` walks `cs`, `acc` holds the (reversed) chars of
the current field. -/
def splitCharAux (sep : Char) : List Char → List Char → List String
  | [], acc => [⟨acc.reverse⟩]
  | c :: cs, acc =>
    if c = sep then ⟨acc.reverse⟩ :: splitCharAux sep cs []
    else splitCharAux sep cs (c :: acc)

/-- Model of JavaScript `s.split(sep)` (single-char separator). -/
def jsSplit (sep : Char) (s : String) : List String :=
  splitCharAux sep s.data []

/-- Model of JavaScript `s.trim()`. -/
def jsTrim (s : String) : String :=
  ⟨(((s.data.dropWhile jsIsSpace).reverse).dropWhile jsIsSpace).reverse⟩

def isDecDigit (c : Char) : Bool := '0' ≤ c && c ≤ '9'

def isHexDigitCh (c : Char) : Bool :=
  ('0' ≤ c && c ≤ '9') || ('a' ≤ c && c ≤ 'f') || ('A' ≤ c && c ≤ 'F')

def isBinDigit (c : Char) : Bool := c = '0' || c = '1'

def isOctDigit (c : Char) : Bool := '0' ≤ c && c ≤ '7'

/-- Numeric value of a decimal digit string (fold, most significant first). -/
def decValue (ds : List Char) : Nat :=
  ds.foldl (fun a c => a * 10 + (c.toNat - 48)) 0

def hexDigitVal (c : Char) : Nat :=
  if '0' ≤ c && c ≤ '9' then c.toNat - 48
  else if 'a' ≤ c && c ≤ 'f' then c.toNat - 87
  else c.toNat - 55

def hexValue (ds : List Char) : Nat :=
  ds.foldl (fun a c => a * 16 + hexDigitVal c) 0

/-- The digit-prefix part of `parseInt` once leading whitespace and the
optional sign are gone: a `0x`/`0X` prefix switches to hex, otherwise the
longest decimal-digit prefix is taken; no digits at all gives NaN. -/
def jsParseIntFrom (sign : Int) (u : List Char) : Option Int :=
  match u with
  | c0 :: c1 :: r =>
    if c0 = '0' && (c1 = 'x' || c1 = 'X') then
      if r.takeWhile isHexDigitCh = [] then none
      else some (sign * (hexValue (r.takeWhile isHexDigitCh) : Nat))
    else
      if u.takeWhile isDecDigit = [] then none
      else some (sign * (decValue (u.takeWhile isDecDigit) : Nat))
  | _ =>
    if u.takeWhile isDecDigit = [] then none
    else some (sign * (decValue (u.takeWhile isDecDigit) : Nat))

/-- Model of JavaScript `parseInt(s)` (radix auto-detection: leading
whitespace skipped, optional sign, `0x`/`0X` hex prefix, else the longest
decimal-digit prefix; `none` models `NaN`). -/
def jsParseInt (s : String) : Option Int :=
  match s.data.dropWhile jsIsSpace with
  | [] => none
  | c :: rest =>
    if c = '-' then jsParseIntFrom (-1) rest
    else if c = '+' then jsParseIntFrom 1 rest
    else jsParseIntFrom 1 (c :: rest)

/-- `u` is a decimal mantissa: `digits+`, `digits+ . digits*` or `. digits+`. -/
def isMantissa (u : List Char) : Bool :=
  match u.drop (u.takeWhile isDecDigit).length with
  | [] => u.takeWhile isDecDigit ≠ []
  | '.' :: fs => (u.takeWhile isDecDigit ≠ [] || fs ≠ []) && fs.all isDecDigit
  | _ => false

/-- Strip one optional leading `+`/`-`. -/
def stripSign (t : List Char) : List Char :=
  match t with
  | c :: rest => if c = '+' || c = '-' then rest else c :: rest
  | [] => []

/-- Exponent part after `e`/`E`: optional sign then one or more digits. -/
def isExpPart (u : List Char) : Bool :=
  stripSign u ≠ [] && (stripSign u).all isDecDigit

/-- Everything before the exponent marker `e`/`E`. -/
def notExpChar (c : Char) : Bool := !(c = 'e') && !(c = 'E')

/-- `u` (already sign-stripped) is a decimal numeric literal accepted by
JavaScript `Number(...)`, possibly with an exponent. -/
def isDecimalNumber (u : List Char) : Bool :=
  match u.drop (u.takeWhile notExpChar).length with
  | [] => isMantissa (u.takeWhile notExpChar)
  | _ :: e => isMantissa (u.takeWhile notExpChar) && isExpPart e

/-- Unsigned radix literals accepted by `Number(...)`:
`0x`/`0b`/`0o` (either case) followed by at least one digit of the radix. -/
def isRadixLiteral (t : List Char) : Bool :=
  match t with
  | c0 :: c1 :: r =>
    c0 = '0' &&
      ((c1 = 'x' || c1 = 'X') && r ≠ [] && r.all isHexDigitCh ||
       (c1 = 'b' || c1 = 'B') && r ≠ [] && r.all isBinDigit ||
       (c1 = 'o' || c1 = 'O') && r ≠ [] && r.all isOctDigit)
  | _ => false

/-- `t` (trimmed, non-empty) parses as a number under `Number(...)`:
unsigned radix literals, or `[+-]?Infinity`, or a signed decimal literal. -/
def isNumberBody (t : List Char) : Bool :=
  isRadixLiteral t ||
  (stripSign t = "Infinity".data || isDecimalNumber (stripSign t))

/-- Model of JavaScript `isNaN(s)`, i.e. whether `Number(s)` is NaN
(the empty/whitespace-only string converts to `0`, hence is not NaN). -/
def jsNumberIsNaN (s : String) : Bool :=
  if (((s.data.dropWhile jsIsSpace).reverse).dropWhile jsIsSpace).reverse = [] then false
  else !(isNumberBody ((((s.data.dropWhile jsIsSpace).reverse).dropWhile jsIsSpace).reverse))

/-- Canonical array-index strings (`"0"`, `"1"`, ..., no sign and no
leading zeros): these are exactly the numeric own-property names of a
JavaScript string. -/
def canonicalIndex (s : String) : Option Nat :=
  match s.data with
  | [] => none
  | c :: cs =>
    if c = '0' then (if cs = [] then some 0 else none)
    else if (c :: cs).all isDecDigit then some (decValue (c :: cs))
    else none

mutual
/-- JSON-like JavaScript runtime values (`JSON.parse` results). -/
inductive JSValue where
  | vStr (s : String)
  | vNum (n : Int)
  | vBool (b : Bool)
  | vNull
  | vArr (items : JSArr)
  | vObj (fields : JSObj)
deriving DecidableEq

/-- A JavaScript array: its elements in order. -/
inductive JSArr where
  | nil
  | cons (head : JSValue) (tail : JSArr)
deriving DecidableEq

/-- A JavaScript object: its own enumerable fields in insertion order. -/
inductive JSObj where
  | nil
  | cons (key : String) (value : JSValue) (tail : JSObj)
deriving DecidableEq
end

namespace JSArr

def length : JSArr → Nat
  | .nil => 0
  | .cons _ t => t.length + 1

/-- `arr[i]` for a natural index (`none` models `undefined`). -/
def getNat : JSArr → Nat → Option JSValue
  | .nil, _ => none
  | .cons h _, 0 => some h
  | .cons _ t, n + 1 => t.getNat n

end JSArr

/-- `arr[i]` for an integer index: negative indices are not own
properties of an array, so they read as `undefined`. -/
def jsArrGet (a : JSArr) : Int → Option JSValue
  | .ofNat n => a.getNat n
  | .negSucc _ => none

namespace JSObj

/-- First binding of `key` (JavaScript objects never repeat a key, so the
first binding is the only one). -/
def findProp : JSObj → String → Option JSValue
  | .nil, _ => none
  | .cons k v t, key => if k = key then some v else t.findProp key

def keys : JSObj → List String
  | .nil => []
  | .cons k _ t => k :: t.keys

end JSObj

/-- JavaScript truthiness of a `JSValue` (`''`, `0`, `false`, `null` are
falsy; every object and array is truthy). -/
def JSValue.truthy : JSValue → Bool
  | .vStr s => s ≠ ""
  | .vNum n => n ≠ 0
  | .vBool b => b
  | .vNull => false
  | .vArr _ => true
  | .vObj _ => true

/-- Truthiness of `resolveKey`'s result, where `none` is `undefined`. -/
def jsOptTruthy : Option JSValue → Bool
  | none => false
  | some v => v.truthy

/-- Own-property read `current[part]` for non-array values, guarded by
`Object.prototype.hasOwnProperty`: objects look up their fields; strings
own their character indices (canonical index strings below the length)
and `length`; numbers, booleans and `null` own nothing. -/
def jsOwnProp : JSValue → String → Option JSValue
  | .vObj fields, part => fields.findProp part
  | .vStr s, part =>
    if part = "length" then some (.vNum s.length)
    else
      match canonicalIndex part with
      | some i =>
        match s.data.get? i with
        | some c => some (.vStr ⟨[c]⟩)
        | none => none
      | none => none
  | _, _ => none

/-- The traversal loop of `resolveKey` (languageGrader.js:176-185), one
path segment at a time.  Arrays are handled first (`Array.isArray`):
non-numeric segments fail, else the element at `parseInt(part)` is taken
(an out-of-range or fractional index yields `undefined`, which makes the
whole resolution `undefined`).  Otherwise a truthy value is read through
`hasOwnProperty`; anything else returns `undefined`. -/
def resolveGo : JSValue → List String → Option JSValue
  | current, [] => some current
  | .vArr items, part :: rest =>
    if jsNumberIsNaN part then none
    else
      match jsParseInt part with
      | none => none
      | some i =>
        match jsArrGet items i with
        | some elem => resolveGo elem rest
        | none => none
  | current, part :: rest =>
    if current.truthy then
      match jsOwnProp current part with
      | some v => resolveGo v rest
      | none => none
    else none

/-- `resolveKey(obj, key)` (languageGrader.js:172-188): split the key on
`'.'` and traverse. `none` models `undefined`. -/
def resolveKey (obj : JSValue) (key : String) : Option JSValue :=
  resolveGo obj (jsSplit '.' key)

/-- `prefix ? `${prefix}.${key}` : key` — the full key built by
`extractAllKeys` (languageGrader.js:211). -/
def jsFullKey (pre key : String) : String :=
  if pre = "" then key else pre ++ "." ++ key

/-- The scalar entries `Object.entries` yields for a string: one single
character value per index.  `extractAllKeys` treats them as scalar
leaves, pushing `fullKey` for each index `i₀ + j`, `j < n`. -/
def extractStrEntries : Nat → Nat → String → List String
  | 0, _, _ => []
  | n + 1, i, pre => jsFullKey pre (Nat.repr i) :: extractStrEntries n (i + 1) pre

mutual
/-- `extractAllKeys(obj, prefix)` (languageGrader.js:207-229).  The
`for (const [key, value] of Object.entries(obj))` loop: objects iterate
their fields, arrays iterate index/element pairs, strings iterate their
characters (scalars), and other primitives have no entries. -/
def extractAllKeys : JSValue → String → List String
  | .vObj fields, pre => extractObjEntries fields pre
  | .vArr items, pre => extractArrEntries items 0 pre
  | .vStr s, pre => extractStrEntries s.length 0 pre
  | _, _ => []

/-- The entries loop over an object's fields. -/
def extractObjEntries : JSObj → String → List String
  | .nil, _ => []
  | .cons key value rest, pre =>
    extractEntry (jsFullKey pre key) value ++ extractObjEntries rest pre

/-- The entries loop over an array's index/element pairs (`i` is the
absolute index of the first element of the remaining list). -/
def extractArrEntries : JSArr → Nat → String → List String
  | .nil, _, _ => []
  | .cons value rest, i, pre =>
    extractEntry (jsFullKey pre (Nat.repr i)) value ++ extractArrEntries rest (i + 1) pre

/-- One iteration of the entries loop (languageGrader.js:212-225): an
object value recurses with `fullKey`; an array value runs the `forEach`
branch; a scalar pushes `fullKey`. -/
def extractEntry (fullKey : String) : JSValue → List String
  | .vObj fs => extractObjEntries fs fullKey
  | .vArr items => extractForEach items 0 fullKey
  | _ => [fullKey]

/-- The `value.forEach((item, index) => ...)` branch
(languageGrader.js:216-222): object or array items recurse into
`extractAllKeys(item, `${fullKey}.${index}`)`, scalars push the indexed
key directly. -/
def extractForEach : JSArr → Nat → String → List String
  | .nil, _, _ => []
  | .cons item rest, index, fullKey =>
    (match item with
     | .vObj fs => extractObjEntries fs (fullKey ++ "." ++ Nat.repr index)
     | .vArr items => extractArrEntries items 0 (fullKey ++ "." ++ Nat.repr index)
     | _ => [fullKey ++ "." ++ Nat.repr index]) ++ extractForEach rest (index + 1) fullKey
end

/-! ### Well-formedness of translation documents and key-path helpers
(used to state and prove the extractor/resolver round-trip) -/

/-- The key contains no `.` separator. -/
def dotFree (s : String) : Bool :=
  s.data.all fun c => !(c = '.')

/-- Does the object own the key (used to state key uniqueness)? -/
def keyMem : JSObj → String → Bool
  | .nil, _ => false
  | .cons k _ t, key => k = key || keyMem t key

mutual
/-- A well-formed translation document: every mapping key anywhere is
non-empty, contains no `.`, and is not repeated within its mapping (the
last two always hold for `JSON.parse` output of sensible translation
files; dotted keys are representable in JSON but break the dot-path
round-trip). -/
def wfDoc : JSValue → Bool
  | .vObj fields => wfObj fields
  | .vArr items => wfArr items
  | _ => true

def wfObj : JSObj → Bool
  | .nil => true
  | .cons k v t => !(k = "") && dotFree k && !(keyMem t k) && wfDoc v && wfObj t

def wfArr : JSArr → Bool
  | .nil => true
  | .cons h t => wfDoc h && wfArr t
end

/-- `"p1.p2...pn"` from the list of segments. -/
def intercalateDot : List String → String
  | [] => ""
  | [p] => p
  | p :: ps => p ++ "." ++ intercalateDot ps

/-- A key path under an extraction prefix: the bare joined segments when
the prefix is empty, else `pre.p1...pn`. -/
def joinPre (pre : String) (ps : List String) : String :=
  if pre = "" then intercalateDot ps else pre ++ "." ++ intercalateDot ps

/-- The key named by segments `ps` below an entry whose full key is
`fullKey`: `fullKey` itself when the entry is a scalar leaf (`ps = []`),
else `fullKey.p1...pn`. -/
def extKey (fullKey : String) : List String → String
  | [] => fullKey
  | p :: ps => fullKey ++ "." ++ intercalateDot (p :: ps)

/-- Big-endian decimal digit characters of `n`: the specification-level
mirror of `Nat.toDigitsCore`, used to reason about `Nat.repr`. -/
def digitsBE (n : Nat) : List Char :=
  if n < 10 then [Nat.digitChar n]
  else digitsBE (n / 10) ++ [Nat.digitChar (n % 10)]
termination_by n
decreasing_by exact Nat.div_lt_self (by omega) (by omega)

/-! ### The hardcoded-text classifier (languageGrader.js:190-205) -/

def lbrace : Char := Char.ofNat 123
def rbrace : Char := Char.ofNat 125

/-- Test of `/^[\x7b\x7d$]/`. -/
def startsBraceDollar (s : String) : Bool :=
  match s.data with
  | [] => false
  | c :: _ => c = lbrace || c = rbrace || c = '$'

/-- Test of `/^\d+$/`. -/
def digitsOnly (s : String) : Bool :=
  s.data ≠ [] && s.data.all isDecDigit

def isLowerAl (c : Char) : Bool := 'a' ≤ c && c ≤ 'z'
def isUpperAl (c : Char) : Bool := 'A' ≤ c && c ≤ 'Z'

/-- Test of `/^[a-z]{1,3}$/`. -/
def lower1to3 (s : String) : Bool :=
  1 ≤ s.data.length && s.data.length ≤ 3 && s.data.all isLowerAl

/-- Test of `/^#[0-9a-fA-F]+$/`. -/
def hexColor (s : String) : Bool :=
  match s.data with
  | c :: rest => c = '#' && rest ≠ [] && rest.all isHexDigitCh
  | [] => false

/-- Test of `/^[A-Z_]+$/`. -/
def upperConst (s : String) : Bool :=
  s.data ≠ [] && s.data.all (fun c => isUpperAl c || c = '_')

/-- Test of `/^\s*$/`. -/
def wsOnly (s : String) : Bool :=
  s.data.all jsIsSpace

/-- `excludePatterns.some(pattern => pattern.test(text))`. -/
def excludeTest (text : String) : Bool :=
  startsBraceDollar text || digitsOnly text || lower1to3 text ||
  hexColor text || upperConst text || text = "className" || text = "testID"

/-- `shouldFlagAsHardcoded(text)` (languageGrader.js:190-205): length
over 3, no exclusion pattern matches, and not all-whitespace. -/
def shouldFlagAsHardcoded (text : String) : Bool :=
  decide (text.length > 3) && !(excludeTest text) && !(wsOnly text)

/-! ### The two regex passes (languageGrader.js:87-88)

`exec` in a `while` loop with a `/g` regex finds successive
non-overlapping matches left to right, restarting immediately after each
match.  The scanners below implement exactly that: try a match at the
current position, on success emit it and skip its length, otherwise
advance one character.  The fuel argument (bounded by the text length, a
bound on the number of loop steps since every step consumes at least one
character) makes the recursion structural. -/

def isQuoteCh (c : Char) : Bool := c = '\'' || c = '"' || c = '`'

def isAsciiLetter (c : Char) : Bool := isUpperAl c || isLowerAl c

/-- Match of `/i18n\.t\(['"`]([^'"`]+)['"`]\)/` anchored at the head of
`cs`: the literal `i18n.t(`, an opening quote, a non-empty maximal run of
non-quote characters (the capture), any closing quote, then `)`.
Returns the capture and the total match length. -/
def matchI18nAt (cs : List Char) : Option (String × Nat) :=
  match cs with
  | 'i' :: '1' :: '8' :: 'n' :: '.' :: 't' :: '(' :: q :: rest =>
    if isQuoteCh q then
      let body := rest.takeWhile (fun c => !(isQuoteCh c))
      if body = [] then none
      else
        match rest.drop body.length with
        | q2 :: ')' :: _ =>
          if isQuoteCh q2 then some (⟨body⟩, 7 + 1 + body.length + 2) else none
        | _ => none
    else none
  | _ => none

/-- The `while ((match = I18N_REGEX.exec(code)) !== null)` loop: emits
`(capture, match.index)` pairs. -/
def scanI18nAux : Nat → List Char → Nat → List (String × Nat)
  | 0, _, _ => []
  | _ + 1, [], _ => []
  | fuel + 1, c :: rest, pos =>
    match matchI18nAt (c :: rest) with
    | some (key, len) => (key, pos) :: scanI18nAux fuel (rest.drop (len - 1)) (pos + len)
    | none => scanI18nAux fuel rest (pos + 1)

def scanI18n (cs : List Char) : List (String × Nat) :=
  scanI18nAux cs.length cs 0

/-- After the leading `[A-Za-z]` of the capture, the lazy tail
`[^<{]+?\s*<`: grow the body one non-`<`/non-`{` character at a time and
stop at the first point where the maximal whitespace run that follows is
terminated by `<` (lazy quantifier: the shortest body wins).  Returns the
body and the length of that trailing whitespace run. -/
def hcLazyTail : List Char → List Char → Option (List Char × Nat)
  | [], _ => none
  | c :: cs, acc =>
    if c = '<' || c = lbrace then none
    else
      match cs.drop (cs.takeWhile jsIsSpace).length with
      | '<' :: _ => some (acc ++ [c], (cs.takeWhile jsIsSpace).length)
      | _ => hcLazyTail cs (acc ++ [c])

/-- Match of `/>\s*([A-Za-z][^<\x7b]+?)\s*</` anchored at the head of
`cs`: a `>`, maximal whitespace, a letter, then the lazy tail up to the
closing `<`.  Returns the capture (letter plus body, before trimming) and
the total match length including both angle brackets. -/
def matchHCAt (cs : List Char) : Option (String × Nat) :=
  match cs with
  | c0 :: rest =>
    if c0 = '>' then
      match rest.drop (rest.takeWhile jsIsSpace).length with
      | a :: rest2 =>
        if isAsciiLetter a then
          match hcLazyTail rest2 [] with
          | some (body, wsLen) =>
            some (⟨a :: body⟩,
              1 + (rest.takeWhile jsIsSpace).length + 1 + body.length + wsLen + 1)
          | none => none
        else none
      | [] => none
    else none
  | [] => none

/-- The `while ((hcMatch = HARDCODED_TEXT_REGEX.exec(code)) !== null)`
loop: emits `(capture, match.index)` pairs. -/
def scanHCAux : Nat → List Char → Nat → List (String × Nat)
  | 0, _, _ => []
  | _ + 1, [], _ => []
  | fuel + 1, c :: rest, pos =>
    match matchHCAt (c :: rest) with
    | some (text, len) => (text, pos) :: scanHCAux fuel (rest.drop (len - 1)) (pos + len)
    | none => scanHCAux fuel rest (pos + 1)

def scanHC (cs : List Char) : List (String × Nat) :=
  scanHCAux cs.length cs 0

/-! ### Findings, report, configuration, score (languageGrader.js:57-250) -/

/-- One scanned file: its path and full text contents. -/
structure SourceRecord where
  path : String
  text : String
deriving DecidableEq

/-- `report.missingKeys` entries: `{ file, key }`. -/
structure UsageFinding where
  file : String
  key : String
deriving DecidableEq

/-- `report.hardcodedStrings` entries: `{ file, text }`. -/
structure HardcodedFinding where
  file : String
  text : String
deriving DecidableEq

/-- `report.malformedKeys` entries: `{ file, key, issue }`. -/
structure MalformedFinding where
  file : String
  key : String
  issue : String
deriving DecidableEq

structure Report where
  missingKeys : List UsageFinding
  hardcodedStrings : List HardcodedFinding
  unusedKeys : List String
  malformedKeys : List MalformedFinding
deriving DecidableEq

structure Summary where
  filesScanned : Nat
  totalKeys : Nat
  usedKeys : Nat
  missingKeysCount : Nat
  hardcodedStringsCount : Nat
  unusedKeysCount : Nat
  malformedKeysCount : Nat
  score : ℚ
deriving DecidableEq

/-- The grading configuration.  `none` models an absent field of the JSON
request body. -/
structure GradingConfig where
  translationFile : String
  minimumScore : Option ℚ
  missingKeyWeight : Option ℚ
  hardcodedWeight : Option ℚ
  malformedWeight : Option ℚ
  unusedKeyWeight : Option ℚ
deriving DecidableEq

/-- JavaScript `config.field || default` for a numeric field: an absent
field or a (falsy) zero value falls back to the default. -/
def jsOrD (v : Option ℚ) (d : ℚ) : ℚ :=
  match v with
  | none => d
  | some x => if x = 0 then d else x

/-- `calculateScore(report, config)` (languageGrader.js:231-250): the
four weights (`|| 0.4/0.3/0.2/0.1`), the per-kind penalties
`count × weight`, their sum via `reduce`, and
`Math.max(0, 1.0 - totalPenalty / 10)`. -/
def calculateScore (report : Report) (config : GradingConfig) : ℚ :=
  let wMissing := jsOrD config.missingKeyWeight (4/10)
  let wHardcoded := jsOrD config.hardcodedWeight (3/10)
  let wMalformed := jsOrD config.malformedWeight (2/10)
  let wUnused := jsOrD config.unusedKeyWeight (1/10)
  let penalties : List ℚ :=
    [(report.missingKeys.length : ℚ) * wMissing,
     (report.hardcodedStrings.length : ℚ) * wHardcoded,
     (report.malformedKeys.length : ℚ) * wMalformed,
     (report.unusedKeys.length : ℚ) * wUnused]
  let totalPenalty := penalties.foldl (· + ·) 0
  let maxPossibleScore : ℚ := 1
  max 0 (maxPossibleScore - totalPenalty / 10)

/-! ### The orchestrator (languageGrader.js:57-170) -/

/-- Outcome of the external loader: the translation file is missing, its
content does not parse, or it parses to a document. -/
inductive LoadResult where
  | notFound
  | parseError (msg : String)
  | ok (doc : JSValue)

/-- The translation-file loading stage (languageGrader.js:66-84):
a missing file throws `Translation file not found: <path>`, a parse
failure throws with the parser's message; either is caught and wrapped
into `Failed to load translation file: <message>`. -/
def loadTranslations (config : GradingConfig) : LoadResult → Except String JSValue
  | .notFound =>
    .error ("Failed to load translation file: Translation file not found: "
      ++ config.translationFile)
  | .parseError msg => .error ("Failed to load translation file: " ++ msg)
  | .ok doc => .ok doc

/-- The report part of the returned value: the fatal path carries only an
`error` string, the completed path a full report plus summary. -/
inductive ReportOrError where
  | errorOnly (error : String)
  | full (report : Report) (summary : Summary)
deriving DecidableEq

structure GradeResult where
  success : Bool
  score : ℚ
  report : ReportOrError
deriving DecidableEq

/-- The i18n-key capture list of one file (first regex pass). -/
def scanKeys (code : String) : List String :=
  (scanI18n code.data).map Prod.fst

/-- Per-file `missingKeys` appends (languageGrader.js:112-114): one entry
per match whose key resolves to a falsy value (`if (!resolveKey(...))`). -/
def fileMissing (doc : JSValue) (rec : SourceRecord) : List UsageFinding :=
  (scanKeys rec.text).filterMap fun key =>
    if jsOptTruthy (resolveKey doc key) then none else some ⟨rec.path, key⟩

/-- Per-file `malformedKeys` appends (languageGrader.js:117-123): one
entry per match whose key contains both `[` and `]`. -/
def fileMalformed (rec : SourceRecord) : List MalformedFinding :=
  (scanKeys rec.text).filterMap fun key =>
    if '[' ∈ key.data && ']' ∈ key.data then
      some ⟨rec.path, key, "Use dot notation instead of bracket notation"⟩
    else none

/-- Per-file `hardcodedStrings` appends (languageGrader.js:128-133): one
entry per second-pass match whose trimmed capture the classifier flags. -/
def fileHardcoded (rec : SourceRecord) : List HardcodedFinding :=
  (scanHC rec.text.data).filterMap fun m =>
    let text := jsTrim m.1
    if shouldFlagAsHardcoded text then some ⟨rec.path, text⟩ else none

/-- The post-load stages of `gradeLanguageImplementation`
(languageGrader.js:98-169): scan every file (accumulating the used-key
set and the three finding lists), compute `unusedKeys` from
`extractAllKeys`, the score, the summary, and
`success = score >= (config.minimumScore || 0.8)`. -/
def gradeCore (doc : JSValue) (config : GradingConfig)
    (files : List SourceRecord) : GradeResult :=
  let usedKeys := files.flatMap fun r => scanKeys r.text
  let missingKeys := files.flatMap (fileMissing doc)
  let malformedKeys := files.flatMap fileMalformed
  let hardcodedStrings := files.flatMap fileHardcoded
  let allTranslationKeys := extractAllKeys doc ""
  let unusedKeys := allTranslationKeys.filter fun key => !(decide (key ∈ usedKeys))
  let report : Report := ⟨missingKeys, hardcodedStrings, unusedKeys, malformedKeys⟩
  let score := calculateScore report config
  let summary : Summary :=
    ⟨files.length, allTranslationKeys.length, usedKeys.dedup.length,
     missingKeys.length, hardcodedStrings.length, unusedKeys.length,
     malformedKeys.length, score⟩
  let success := decide (score ≥ jsOrD config.minimumScore (8/10))
  ⟨success, score, .full report summary⟩

/-- `gradeLanguageImplementation(config, context)` end to end: a load
failure short-circuits to `{success: false, score: 0, report: {error}}`
(languageGrader.js:76-84); otherwise the scanning, cross-referencing and
scoring stages run over the supplied source records. -/
def gradeLanguageImplementation (config : GradingConfig) (lr : LoadResult)
    (files : List SourceRecord) : GradeResult :=
  match loadTranslations config lr with
  | .error e => ⟨false, 0, .errorOnly e⟩
  | .ok doc => gradeCore doc config files

/-- The `missingKeys` list of a result (empty on the fatal path, which
carries no lists at all). -/
def resultMissingKeys (r : GradeResult) : List UsageFinding :=
  match r.report with
  | .full rep _ => rep.missingKeys
  | .errorOnly _ => []

def resultHardcoded (r : GradeResult) : List HardcodedFinding :=
  match r.report with
  | .full rep _ => rep.hardcodedStrings
  | .errorOnly _ => []

def resultUnused (r : GradeResult) : List String :=
  match r.report with
  | .full rep _ => rep.unusedKeys
  | .errorOnly _ => []

def resultMalformed (r : GradeResult) : List MalformedFinding :=
  match r.report with
  | .full rep _ => rep.malformedKeys
  | .errorOnly _ => []

def resultSummary (r : GradeResult) : Option Summary :=
  match r.report with
  | .full _ s => some s
  | .errorOnly _ => none

/-! ### FileScanner.analyzeI18nUsage and getLineNumber (FileScanner:234-269,337-339) -/

/-- `usedKeys` entries of `analyzeI18nUsage`: `{ key, line }`. -/
structure KeyUsage where
  key : String
  line : Nat
deriving DecidableEq

/-- `hardcodedStrings` entries of `analyzeI18nUsage`: `{ text, line }`. -/
structure HardcodedUsage where
  text : String
  line : Nat
deriving DecidableEq

/-- `getLineNumber(content, index)` (FileScanner:337-339):
`content.substring(0, index).split('\n').length`. -/
def getLineNumber (content : String) (index : Nat) : Nat :=
  (jsSplit '\n' ⟨content.data.take index⟩).length

/-- `analyzeI18nUsage(content)` (FileScanner:234-269): the same two regex
passes, but every emitted finding carries the line number of its match
index; hardcoded candidates are trimmed and filtered by the classifier. -/
def analyzeI18nUsage (content : String) : List KeyUsage × List HardcodedUsage :=
  let usedKeys := (scanI18n content.data).map fun m =>
    (⟨m.1, getLineNumber content m.2⟩ : KeyUsage)
  let hardcodedStrings := (scanHC content.data).filterMap fun m =>
    let text := jsTrim m.1
    if shouldFlagAsHardcoded text then
      some (⟨text, getLineNumber content m.2⟩ : HardcodedUsage)
    else none
  (usedKeys, hardcodedStrings)

/-! ### Spec-side definitions used to compare code against claim wording -/

/-- The configuration the HTTP handler builds when the request body holds
no overriding fields (languageGrader.js:16-22). -/
def defaultConfig : GradingConfig :=
  ⟨"./store/en.json", none, none, none, none, none⟩

/-- Claim C3's reading of an effective weight: the configured value
whenever one is supplied — including a configured `0` — and the default
only when absent. -/
def claimWeightC3 (v : Option ℚ) (d : ℚ) : ℚ :=
  v.getD d

/-- Claim C3's score formula, built from `claimWeightC3` weights. -/
def claimScoreC3 (report : Report) (config : GradingConfig) : ℚ :=
  max 0 (1 -
    ((report.missingKeys.length : ℚ) * claimWeightC3 config.missingKeyWeight (4/10) +
     (report.hardcodedStrings.length : ℚ) * claimWeightC3 config.hardcodedWeight (3/10) +
     (report.malformedKeys.length : ℚ) * claimWeightC3 config.malformedWeight (2/10) +
     (report.unusedKeys.length : ℚ) * claimWeightC3 config.unusedKeyWeight (1/10)) / 10)

/-- The weight the code actually applies (amended claim C3): the
configured value when supplied and nonzero, the default when the field is
absent or configured as `0` (JavaScript `||` treats `0` as falsy). -/
def effectiveWeight (v : Option ℚ) (d : ℚ) : ℚ :=
  match v with
  | none => d
  | some x => if x = 0 then d else x

/-- The minimum score the code actually compares against (amended claim
C4): the configured value when supplied and nonzero, `0.8` when absent or
configured as `0`. -/
def effectiveMinimum (config : GradingConfig) : ℚ :=
  match config.minimumScore with
  | none => 8/10
  | some m => if m = 0 then 8/10 else m

/-- Claim C6's reading of the classifier: the trimmed length must exceed
3 (the code tests the raw length instead). -/
def claimShouldFlagC6 (text : String) : Bool :=
  decide ((jsTrim text).length > 3) && !(excludeTest text) && !(wsOnly text)

/-- Every weight field that is supplied is nonnegative (hypothesis of the
amended claim C8). -/
def optNonneg : Option ℚ → Bool
  | none => true
  | some x => decide (0 ≤ x)

def suppliedWeightsNonneg (config : GradingConfig) : Bool :=
  optNonneg config.missingKeyWeight && optNonneg config.hardcodedWeight &&
  optNonneg config.malformedWeight && optNonneg config.unusedKeyWeight

/-! ## Helper lemmas -/

theorem splitCharAux_length (sep : Char) :
    ∀ (cs acc : List Char), (splitCharAux sep cs acc).length = cs.count sep + 1 := by
  intro cs
  induction cs with
  | nil => intro acc; simp [splitCharAux]
  | cons c cs ih =>
    intro acc
    by_cases h : c = sep
    · simp [splitCharAux, h, ih, List.count_cons]
    · simp [splitCharAux, h, ih, List.count_cons]

theorem startsBraceDollar_iff (s : String) :
    startsBraceDollar s = true ↔
      ∃ c cs, s.data = c :: cs ∧ (c = lbrace ∨ c = rbrace ∨ c = '$') := by
  cases h : s.data with
  | nil => simp [startsBraceDollar, h]
  | cons c cs =>
    simp only [startsBraceDollar, h, Bool.or_eq_true, decide_eq_true_eq, or_assoc]
    constructor
    · intro hc; exact ⟨c, cs, rfl, hc⟩
    · rintro ⟨c', cs', heq, hc⟩
      cases heq; exact hc

theorem digitsOnly_iff (s : String) :
    digitsOnly s = true ↔ (s.data ≠ [] ∧ ∀ c ∈ s.data, isDecDigit c = true) := by
  simp [digitsOnly, List.all_eq_true]

theorem string_length_data (s : String) : s.length = s.data.length := rfl

theorem lower1to3_iff (s : String) :
    lower1to3 s = true ↔
      (1 ≤ s.data.length ∧ s.data.length ≤ 3 ∧ ∀ c ∈ s.data, isLowerAl c = true) := by
  simp [lower1to3, List.all_eq_true, and_assoc]

theorem hexColor_iff (s : String) :
    hexColor s = true ↔
      ∃ cs, s.data = '#' :: cs ∧ cs ≠ [] ∧ ∀ c ∈ cs, isHexDigitCh c = true := by
  cases h : s.data with
  | nil => simp [hexColor, h]
  | cons c cs =>
    simp only [hexColor, h, Bool.and_eq_true, List.all_eq_true, decide_eq_true_eq, and_assoc]
    constructor
    · rintro ⟨rfl, hne, hall⟩; exact ⟨cs, rfl, hne, hall⟩
    · rintro ⟨cs', heq, hne, hall⟩
      cases heq; exact ⟨rfl, hne, hall⟩

theorem upperConst_iff (s : String) :
    upperConst s = true ↔
      (s.data ≠ [] ∧ ∀ c ∈ s.data, (isUpperAl c = true ∨ c = '_')) := by
  simp [upperConst, List.all_eq_true]

theorem wsOnly_iff (s : String) :
    wsOnly s = true ↔ ∀ c ∈ s.data, jsIsSpace c = true := by
  simp [wsOnly, List.all_eq_true]

/-! ### Decimal-numeral facts: `Nat.repr` through the JavaScript string
coercions (`parseInt`, `isNaN(Number(...))`, canonical index names) -/

theorem digitChar_isDecDigit {d : Nat} (h : d < 10) :
    isDecDigit (Nat.digitChar d) = true := by
  interval_cases d <;> decide

theorem digitChar_val {d : Nat} (h : d < 10) : (Nat.digitChar d).toNat - 48 = d := by
  interval_cases d <;> decide

theorem digitChar_ne_zero {d : Nat} (h1 : d < 10) (h2 : d ≠ 0) :
    Nat.digitChar d ≠ '0' := by
  interval_cases d
  · exact absurd rfl h2
  all_goals decide

theorem isDecDigit_ne {c : Char} (h : isDecDigit c = true) :
    c ≠ '.' ∧ jsIsSpace c = false ∧ c ≠ '+' ∧ c ≠ '-' ∧ c ≠ 'x' ∧ c ≠ 'X' ∧
      notExpChar c = true := by
  refine ⟨?_, ?_, ?_, ?_, ?_, ?_, ?_⟩
  · intro heq; rw [heq] at h; exact absurd h (by decide)
  · cases hsp : jsIsSpace c with
    | false => rfl
    | true =>
      exfalso
      simp only [jsIsSpace, Bool.or_eq_true, decide_eq_true_eq] at hsp
      rcases hsp with ((((rfl | rfl) | rfl) | rfl) | rfl) | rfl <;> exact absurd h (by decide)
  · intro heq; rw [heq] at h; exact absurd h (by decide)
  · intro heq; rw [heq] at h; exact absurd h (by decide)
  · intro heq; rw [heq] at h; exact absurd h (by decide)
  · intro heq; rw [heq] at h; exact absurd h (by decide)
  · rw [notExpChar]
    simp only [Bool.and_eq_true, Bool.not_eq_true', decide_eq_false_iff_not]
    constructor <;> intro heq <;> rw [heq] at h <;> exact absurd h (by decide)

theorem toDigitsCore_eq :
    ∀ (n fuel : Nat), n < fuel → ∀ ds, Nat.toDigitsCore 10 fuel n ds = digitsBE n ++ ds := by
  intro n
  induction n using Nat.strong_induction_on with
  | _ n ih =>
    intro fuel hfuel ds
    match fuel with
    | 0 => omega
    | fuel + 1 =>
      by_cases h0 : n / 10 = 0
      · have hn : n < 10 := by omega
        simp only [Nat.toDigitsCore, h0, if_pos]
        rw [digitsBE, if_pos hn, Nat.mod_eq_of_lt hn]
        rfl
      · have hn : ¬ n < 10 := by omega
        simp only [Nat.toDigitsCore, h0, if_neg, if_false]
        have hlt : n / 10 < n := Nat.div_lt_self (by omega) (by omega)
        rw [ih (n / 10) hlt fuel (by omega) (Nat.digitChar (n % 10) :: ds)]
        conv_rhs => rw [digitsBE]
        rw [if_neg hn]
        rw [List.append_assoc]
        rfl

theorem natRepr_data (n : Nat) : (Nat.repr n).data = digitsBE n := by
  show ((Nat.toDigits 10 n).asString).data = digitsBE n
  rw [Nat.toDigits, toDigitsCore_eq n (n + 1) (by omega) []]
  simp [List.asString]

theorem natRepr_eq (n : Nat) : Nat.repr n = ⟨digitsBE n⟩ := by
  have h : Nat.repr n = ⟨(Nat.repr n).data⟩ := rfl
  rw [h, natRepr_data]

theorem digitsBE_ne_nil (n : Nat) : digitsBE n ≠ [] := by
  rw [digitsBE]
  split <;> simp

theorem digitsBE_all (n : Nat) : ∀ c ∈ digitsBE n, isDecDigit c = true := by
  induction n using Nat.strong_induction_on with
  | _ n ih =>
    rw [digitsBE]
    split
    · intro c hc
      rw [List.mem_singleton.mp hc]
      exact digitChar_isDecDigit (by omega)
    · intro c hc
      rcases List.mem_append.mp hc with hc | hc
      · exact ih (n / 10) (Nat.div_lt_self (by omega) (by omega)) c hc
      · rw [List.mem_singleton.mp hc]
        exact digitChar_isDecDigit (Nat.mod_lt n (by omega))

theorem digitsBE_head_ne_zero :
    ∀ (n : Nat), 1 ≤ n → ∀ (c : Char) (cs : List Char), digitsBE n = c :: cs → c ≠ '0' := by
  intro n
  induction n using Nat.strong_induction_on with
  | _ n ih =>
    intro hn c cs heq
    rw [digitsBE] at heq
    revert heq
    split
    · intro heq
      cases heq
      exact digitChar_ne_zero (by omega) (by omega)
    · intro heq
      cases hd : digitsBE (n / 10) with
      | nil => exact absurd hd (digitsBE_ne_nil _)
      | cons c' cs' =>
        rw [hd, List.cons_append] at heq
        have hc : c = c' := (List.cons.injEq _ _ _ _ ▸ heq).1.symm
        rw [hc]
        exact ih (n / 10) (Nat.div_lt_self (by omega) (by omega))
          (by omega) c' cs' hd

theorem digitsBE_foldl :
    ∀ (n : Nat) (acc : Nat),
      (digitsBE n).foldl (fun a c => a * 10 + (c.toNat - 48)) acc
        = acc * 10 ^ (digitsBE n).length + n := by
  intro n
  induction n using Nat.strong_induction_on with
  | _ n ih =>
    intro acc
    rw [digitsBE]
    split
    · rename_i hn
      simp only [List.foldl_cons, List.foldl_nil, List.length_singleton, pow_one]
      rw [digitChar_val hn]
    · rename_i hn
      rw [List.foldl_append, ih (n / 10) (Nat.div_lt_self (by omega) (by omega)) acc]
      simp only [List.foldl_cons, List.foldl_nil, List.length_append, List.length_singleton]
      rw [digitChar_val (Nat.mod_lt n (by omega))]
      rw [pow_succ]
      have hdm := Nat.div_add_mod n 10
      set L := (digitsBE (n / 10)).length
      calc (acc * 10 ^ L + n / 10) * 10 + n % 10
          = acc * (10 ^ L * 10) + (10 * (n / 10) + n % 10) := by ring
        _ = acc * (10 ^ L * 10) + n := by rw [hdm]

theorem decValue_digitsBE (n : Nat) : decValue (digitsBE n) = n := by
  rw [decValue, digitsBE_foldl n 0]
  simp

theorem digit_list_head {n : Nat} :
    ∃ c cs, digitsBE n = c :: cs ∧ isDecDigit c = true := by
  cases hd : digitsBE n with
  | nil => exact absurd hd (digitsBE_ne_nil _)
  | cons c cs =>
    exact ⟨c, cs, rfl, digitsBE_all n c (hd ▸ List.mem_cons_self c cs)⟩

theorem jsParseIntFrom_digits :
    ∀ (l : List Char), l ≠ [] → (∀ c ∈ l, isDecDigit c = true) →
      jsParseIntFrom 1 l = some ((decValue l : Nat) : Int) := by
  intro l hne hall
  have htake : l.takeWhile isDecDigit = l := List.takeWhile_eq_self_iff.mpr hall
  match l with
  | [] => exact absurd rfl hne
  | [c] =>
    have hstep : jsParseIntFrom 1 [c]
        = if ([c].takeWhile isDecDigit) = [] then none
          else some ((1 : Int) * ((decValue ([c].takeWhile isDecDigit) : Nat) : Int)) := rfl
    rw [hstep, htake, if_neg (by simp [hne]), one_mul]
  | c0 :: c1 :: r =>
    have h1 : isDecDigit c1 = true := hall c1 (by simp)
    have hx := (isDecDigit_ne h1).2.2.2.2.1
    have hX := (isDecDigit_ne h1).2.2.2.2.2.1
    rw [jsParseIntFrom]
    rw [if_neg (by simp [hx, hX])]
    rw [htake, if_neg (by simp [hne])]
    rw [one_mul]

theorem jsParseInt_repr (n : Nat) : jsParseInt (Nat.repr n) = some (n : Int) := by
  obtain ⟨c, cs, heq, hc⟩ := digit_list_head (n := n)
  have hfacts := isDecDigit_ne hc
  have hdata : (Nat.repr n).data = c :: cs := by rw [natRepr_data, heq]
  have hdrop : (Nat.repr n).data.dropWhile jsIsSpace = c :: cs := by
    rw [hdata, List.dropWhile_cons, hfacts.2.1]
    simp
  rw [jsParseInt, hdrop]
  simp only [if_neg hfacts.2.2.2.1, if_neg hfacts.2.2.1]
  rw [← heq, jsParseIntFrom_digits (digitsBE n) (digitsBE_ne_nil n) (digitsBE_all n)]
  rw [decValue_digitsBE]

theorem isDecimalNumber_digits (l : List Char) (hne : l ≠ [])
    (hall : ∀ c ∈ l, isDecDigit c = true) : isDecimalNumber l = true := by
  have hkeep : l.takeWhile notExpChar = l := by
    apply List.takeWhile_eq_self_iff.mpr
    intro c hcm
    exact (isDecDigit_ne (hall c hcm)).2.2.2.2.2.2
  have htake : l.takeWhile isDecDigit = l := List.takeWhile_eq_self_iff.mpr hall
  rw [isDecimalNumber]
  simp only [hkeep, List.drop_length]
  rw [isMantissa]
  simp only [htake, List.drop_length]
  simp [hne]

theorem trim_digits (l : List Char) (hall : ∀ c ∈ l, isDecDigit c = true) :
    ((l.dropWhile jsIsSpace).reverse.dropWhile jsIsSpace).reverse = l := by
  have hfront : l.dropWhile jsIsSpace = l := by
    cases l with
    | nil => rfl
    | cons c cs =>
      rw [List.dropWhile_cons, (isDecDigit_ne (hall c (by simp))).2.1]
      simp
  rw [hfront]
  cases hrev : l.reverse with
  | nil => simp [List.reverse_eq_nil_iff.mp hrev]
  | cons c cs =>
    have hcm : c ∈ l := by
      rw [← List.mem_reverse, hrev]
      exact List.mem_cons_self c cs
    rw [List.dropWhile_cons, (isDecDigit_ne (hall c hcm)).2.1]
    simp only [if_false, Bool.false_eq_true]
    rw [← hrev, List.reverse_reverse]

theorem jsNumberIsNaN_repr (n : Nat) : jsNumberIsNaN (Nat.repr n) = false := by
  obtain ⟨c, cs, heq, hc⟩ := digit_list_head (n := n)
  have hdata : (Nat.repr n).data = digitsBE n := natRepr_data n
  rw [jsNumberIsNaN, hdata, trim_digits (digitsBE n) (digitsBE_all n)]
  rw [if_neg (digitsBE_ne_nil n)]
  have hstrip : stripSign (digitsBE n) = digitsBE n := by
    rw [heq, stripSign]
    have hfacts := isDecDigit_ne hc
    rw [if_neg (by simp [hfacts.2.2.1, hfacts.2.2.2.1])]
  have hinf : ¬ stripSign (digitsBE n) = "Infinity".data := by
    rw [hstrip, heq]
    intro hbad
    have : c = 'I' := (List.cons.injEq _ _ _ _ ▸ hbad).1
    rw [this] at hc
    exact absurd hc (by decide)
  have hdec : isDecimalNumber (stripSign (digitsBE n)) = true := by
    rw [hstrip]
    exact isDecimalNumber_digits _ (digitsBE_ne_nil n) (digitsBE_all n)
  rw [isNumberBody]
  simp [hinf, hdec]

theorem canonicalIndex_repr (n : Nat) : canonicalIndex (Nat.repr n) = some n := by
  match hn : n with
  | 0 =>
    have h0 : (Nat.repr 0).data = ['0'] := by
      rw [natRepr_data]
      rw [digitsBE, if_pos (by omega)]
      rfl
    rw [canonicalIndex, h0]
    simp
  | m + 1 =>
    obtain ⟨c, cs, heq, hc⟩ := digit_list_head (n := m + 1)
    have hdata : (Nat.repr (m + 1)).data = c :: cs := by rw [natRepr_data, heq]
    have hne0 : c ≠ '0' := digitsBE_head_ne_zero (m + 1) (by omega) c cs heq
    have hall : (c :: cs).all isDecDigit = true := by
      rw [List.all_eq_true, ← heq]; exact digitsBE_all (m + 1)
    simp only [canonicalIndex, hdata, if_neg hne0, hall, if_pos, if_true]
    rw [← heq, decValue_digitsBE]

/-! ### Reduction lemmas for `resolveGo` and key-path algebra -/

theorem resolveGo_obj (fields : JSObj) (part : String) (rest : List String) :
    resolveGo (.vObj fields) (part :: rest)
      = match fields.findProp part with
        | some v => resolveGo v rest
        | none => none := rfl

theorem resolveGo_arr_repr (items : JSArr) (j : Nat) (rest : List String) :
    resolveGo (.vArr items) (Nat.repr j :: rest)
      = match items.getNat j with
        | some elem => resolveGo elem rest
        | none => none := by
  have h1 : resolveGo (.vArr items) (Nat.repr j :: rest)
      = if jsNumberIsNaN (Nat.repr j) = true then none
        else match jsParseInt (Nat.repr j) with
          | none => none
          | some i =>
            match jsArrGet items i with
            | some elem => resolveGo elem rest
            | none => none := rfl
  rw [h1, jsNumberIsNaN_repr, if_neg (by simp), jsParseInt_repr]
  rfl

theorem findProp_cons_ne (k : String) (v : JSValue) (t : JSObj) (key : String)
    (h : ¬ k = key) : (JSObj.cons k v t).findProp key = t.findProp key := by
  rw [JSObj.findProp, if_neg h]

theorem natRepr_ne_empty (n : Nat) : ¬ Nat.repr n = "" := by
  intro h
  have hd := congrArg String.data h
  rw [natRepr_data] at hd
  exact digitsBE_ne_nil n hd

theorem dotFree_repr (n : Nat) : dotFree (Nat.repr n) = true := by
  rw [dotFree, List.all_eq_true, natRepr_data]
  intro c hc
  simp only [Bool.not_eq_true', decide_eq_false_iff_not]
  exact (isDecDigit_ne (digitsBE_all n c hc)).1

theorem dotAppend_ne_empty (a b : String) : ¬ a ++ "." ++ b = "" := by
  intro h
  have hd := congrArg String.data h
  rw [String.data_append, String.data_append] at hd
  simp at hd

theorem jsFullKey_ne_empty (pre k : String) (hk : ¬ k = "") :
    ¬ jsFullKey pre k = "" := by
  rw [jsFullKey]
  split
  · exact hk
  · exact dotAppend_ne_empty pre k

theorem intercalateDot_cons (p : String) (ps : List String) (h : ps ≠ []) :
    intercalateDot (p :: ps) = p ++ "." ++ intercalateDot ps := by
  match ps with
  | [] => exact absurd rfl h
  | q :: qs => rfl

theorem joinPre_single (pre k : String) : joinPre pre [k] = jsFullKey pre k := by
  by_cases h : pre = "" <;> simp [joinPre, jsFullKey, h, intercalateDot]

theorem joinPre_cons (pre k : String) (ps : List String) (hk : ¬ k = "")
    (hps : ps ≠ []) : joinPre (jsFullKey pre k) ps = joinPre pre (k :: ps) := by
  by_cases h : pre = ""
  · subst h
    rw [jsFullKey, if_pos rfl, joinPre, if_neg hk, joinPre, if_pos rfl,
      intercalateDot_cons k ps hps]
  · rw [jsFullKey, if_neg h, joinPre, if_neg (dotAppend_ne_empty pre k), joinPre,
      if_neg h, intercalateDot_cons k ps hps]
    simp [String.append_assoc]

theorem extKey_eq_joinPre (fullKey : String) (ps : List String)
    (h : ¬ fullKey = "") (hps : ps ≠ []) : extKey fullKey ps = joinPre fullKey ps := by
  match ps with
  | [] => exact absurd rfl hps
  | p :: qs => rw [extKey, joinPre, if_neg h]

theorem joinPre_deep (fullKey key : String) (ps : List String) (hps : ps ≠ []) :
    joinPre (fullKey ++ "." ++ key) ps = extKey fullKey (key :: ps) := by
  rw [joinPre, if_neg (dotAppend_ne_empty fullKey key), extKey,
    intercalateDot_cons key ps hps]
  simp [String.append_assoc]

theorem splitCharAux_no_sep :
    ∀ (xs acc : List Char), (∀ c ∈ xs, ¬ c = '.') →
      splitCharAux '.' xs acc = [⟨acc.reverse ++ xs⟩] := by
  intro xs
  induction xs with
  | nil => intro acc _; rw [splitCharAux]; simp
  | cons c cs ih =>
    intro acc h
    rw [splitCharAux, if_neg (h c (by simp))]
    rw [ih (c :: acc) (fun d hd => h d (by simp [hd]))]
    simp [List.append_assoc]

theorem splitCharAux_sep :
    ∀ (xs ys acc : List Char), (∀ c ∈ xs, ¬ c = '.') →
      splitCharAux '.' (xs ++ '.' :: ys) acc
        = ⟨acc.reverse ++ xs⟩ :: splitCharAux '.' ys [] := by
  intro xs
  induction xs with
  | nil =>
    intro ys acc _
    rw [List.nil_append, splitCharAux, if_pos rfl]
    simp
  | cons c cs ih =>
    intro ys acc h
    rw [List.cons_append, splitCharAux, if_neg (h c (by simp))]
    rw [ih ys (c :: acc) (fun d hd => h d (by simp [hd]))]
    simp [List.append_assoc]

theorem dotFree_chars {p : String} (h : dotFree p = true) : ∀ c ∈ p.data, ¬ c = '.' := by
  rw [dotFree, List.all_eq_true] at h
  intro c hc
  have := h c hc
  simpa using this

theorem jsSplit_intercalate :
    ∀ (ps : List String), ps ≠ [] → (∀ p ∈ ps, dotFree p = true) →
      jsSplit '.' (intercalateDot ps) = ps := by
  intro ps
  induction ps with
  | nil => intro h; exact absurd rfl h
  | cons p qs ih =>
    intro _ hall
    have hp : ∀ c ∈ p.data, ¬ c = '.' := dotFree_chars (hall p (by simp))
    match hqs : qs with
    | [] =>
      show jsSplit '.' p = [p]
      rw [jsSplit, splitCharAux_no_sep p.data [] hp]
      rfl
    | q :: qs' =>
      rw [intercalateDot_cons p (q :: qs') (by simp)]
      rw [jsSplit]
      have hdata : (p ++ "." ++ intercalateDot (q :: qs')).data
          = p.data ++ '.' :: (intercalateDot (q :: qs')).data := by
        rw [String.data_append, String.data_append]
        rw [List.append_assoc]
        rfl
      rw [hdata, splitCharAux_sep p.data _ [] hp]
      have hrest : splitCharAux '.' (intercalateDot (q :: qs')).data [] = q :: qs' := by
        have := ih (by simp) (fun r hr => hall r (by simp [hr]))
        rw [jsSplit] at this
        exact this
      rw [hrest]
      rfl

theorem getNat_cons_zero (v : JSValue) (rest : JSArr) :
    (JSArr.cons v rest).getNat 0 = some v := rfl

theorem getNat_cons_succ (v : JSValue) (rest : JSArr) (j : Nat) :
    (JSArr.cons v rest).getNat (j + 1) = rest.getNat j := rfl

theorem extractStrEntries_mem :
    ∀ (cnt i0 : Nat) (pre K : String), K ∈ extractStrEntries cnt i0 pre →
      ∃ j, j < cnt ∧ K = jsFullKey pre (Nat.repr (i0 + j)) := by
  intro cnt
  induction cnt with
  | zero => intro i0 pre K h; exact absurd h (by simp [extractStrEntries])
  | succ n ih =>
    intro i0 pre K h
    rw [extractStrEntries] at h
    rcases List.mem_cons.mp h with h | h
    · exact ⟨0, by omega, by rw [h, Nat.add_zero]⟩
    · obtain ⟨j, hj, hK⟩ := ih (i0 + 1) pre K h
      refine ⟨j + 1, by omega, ?_⟩
      rw [hK]
      have he : i0 + (j + 1) = i0 + 1 + j := by omega
      rw [he]

/-! ### The extractor/resolver round-trip (mutual induction following the
structure of `extractAllKeys`) -/

mutual
theorem extractObj_resolves (fields : JSObj) (pre : String)
    (hwf : wfObj fields = true) :
    ∀ K ∈ extractObjEntries fields pre,
      ∃ k ps, keyMem fields k = true ∧ (∀ p ∈ k :: ps, dotFree p = true) ∧
        K = joinPre pre (k :: ps) ∧ (resolveGo (.vObj fields) (k :: ps)).isSome = true := by
  match fields with
  | .nil => intro K hK; exact absurd hK (by simp [extractObjEntries])
  | .cons k v rest =>
    intro K hK
    simp only [wfObj, Bool.and_eq_true, Bool.not_eq_true',
      decide_eq_false_iff_not] at hwf
    obtain ⟨⟨⟨⟨hkne, hkdf⟩, hkmem⟩, hv⟩, ht⟩ := hwf
    rw [extractObjEntries] at hK
    rcases List.mem_append.mp hK with hK | hK
    · obtain ⟨ps, hdf, hKe, hres⟩ :=
        extractEntry_resolves (jsFullKey pre k) v hv (jsFullKey_ne_empty pre k hkne) K hK
      have hfind : (JSObj.cons k v rest).findProp k = some v := by
        rw [JSObj.findProp, if_pos rfl]
      have hstep : resolveGo (.vObj (.cons k v rest)) (k :: ps) = resolveGo v ps := by
        rw [resolveGo_obj, hfind]
      refine ⟨k, ps, ?_, ?_, ?_, ?_⟩
      · rw [keyMem]; simp
      · intro p hp
        rcases List.mem_cons.mp hp with rfl | hp
        · exact hkdf
        · exact hdf p hp
      · rw [hKe]
        match ps with
        | [] => rw [extKey, joinPre_single]
        | p :: qs =>
          rw [extKey_eq_joinPre _ _ (jsFullKey_ne_empty pre k hkne) (by simp)]
          exact joinPre_cons pre k (p :: qs) hkne (by simp)
      · rw [hstep]; exact hres
    · obtain ⟨k', ps, hk'mem, hdf, hKe, hres⟩ := extractObj_resolves rest pre ht K hK
      have hkk' : ¬ k = k' := by
        intro he
        rw [← he] at hk'mem
        rw [hkmem] at hk'mem
        exact Bool.false_ne_true hk'mem
      have hstep : resolveGo (.vObj (.cons k v rest)) (k' :: ps)
          = resolveGo (.vObj rest) (k' :: ps) := by
        rw [resolveGo_obj, resolveGo_obj, findProp_cons_ne k v rest k' hkk']
      refine ⟨k', ps, ?_, hdf, hKe, ?_⟩
      · rw [keyMem]; simp [hk'mem]
      · rw [hstep]; exact hres

theorem extractArr_resolves (sub : JSArr) (i0 : Nat) (pre : String)
    (hwf : wfArr sub = true) :
    ∀ K ∈ extractArrEntries sub i0 pre,
      ∃ j elem ps, sub.getNat j = some elem ∧
        (∀ p ∈ Nat.repr (i0 + j) :: ps, dotFree p = true) ∧
        K = joinPre pre (Nat.repr (i0 + j) :: ps) ∧
        (resolveGo elem ps).isSome = true := by
  match sub with
  | .nil => intro K hK; exact absurd hK (by simp [extractArrEntries])
  | .cons v rest =>
    intro K hK
    simp only [wfArr, Bool.and_eq_true] at hwf
    obtain ⟨hv, ht⟩ := hwf
    rw [extractArrEntries] at hK
    rcases List.mem_append.mp hK with hK | hK
    · obtain ⟨ps, hdf, hKe, hres⟩ :=
        extractEntry_resolves (jsFullKey pre (Nat.repr i0)) v hv
          (jsFullKey_ne_empty pre _ (natRepr_ne_empty i0)) K hK
      refine ⟨0, v, ps, rfl, ?_, ?_, hres⟩
      · intro p hp
        rcases List.mem_cons.mp hp with rfl | hp
        · rw [Nat.add_zero]; exact dotFree_repr i0
        · exact hdf p hp
      · rw [hKe, Nat.add_zero]
        match ps with
        | [] => rw [extKey, joinPre_single]
        | p :: qs =>
          rw [extKey_eq_joinPre _ _ (jsFullKey_ne_empty pre _ (natRepr_ne_empty i0)) (by simp)]
          exact joinPre_cons pre _ (p :: qs) (natRepr_ne_empty i0) (by simp)
    · obtain ⟨j, elem, ps, hget, hdf, hKe, hres⟩ :=
        extractArr_resolves rest (i0 + 1) pre ht K hK
      have he : i0 + (j + 1) = i0 + 1 + j := by omega
      refine ⟨j + 1, elem, ps, ?_, ?_, ?_, hres⟩
      · rw [getNat_cons_succ]; exact hget
      · rw [he]; exact hdf
      · rw [he]; exact hKe

theorem extractForEach_resolves (sub : JSArr) (i0 : Nat) (fullKey : String)
    (hwf : wfArr sub = true) (hfk : ¬ fullKey = "") :
    ∀ K ∈ extractForEach sub i0 fullKey,
      ∃ j elem ps, sub.getNat j = some elem ∧
        (∀ p ∈ Nat.repr (i0 + j) :: ps, dotFree p = true) ∧
        K = extKey fullKey (Nat.repr (i0 + j) :: ps) ∧
        (resolveGo elem ps).isSome = true := by
  match sub with
  | .nil => intro K hK; exact absurd hK (by simp [extractForEach])
  | .cons item rest =>
    intro K hK
    simp only [wfArr, Bool.and_eq_true] at hwf
    obtain ⟨hitem, ht⟩ := hwf
    have tailStep : ∀ K2, K2 ∈ extractForEach rest (i0 + 1) fullKey →
        ∃ j elem ps, (JSArr.cons item rest).getNat j = some elem ∧
          (∀ p ∈ Nat.repr (i0 + j) :: ps, dotFree p = true) ∧
          K2 = extKey fullKey (Nat.repr (i0 + j) :: ps) ∧
          (resolveGo elem ps).isSome = true := by
      intro K2 hK2
      obtain ⟨j, elem, ps, hget, hdf, hKe, hres⟩ :=
        extractForEach_resolves rest (i0 + 1) fullKey ht hfk K2 hK2
      have he : i0 + (j + 1) = i0 + 1 + j := by omega
      refine ⟨j + 1, elem, ps, ?_, ?_, ?_, hres⟩
      · rw [getNat_cons_succ]; exact hget
      · rw [he]; exact hdf
      · rw [he]; exact hKe
    have scalarHead : (resolveGo item []).isSome = true →
        K = fullKey ++ "." ++ Nat.repr i0 →
        ∃ j elem ps, (JSArr.cons item rest).getNat j = some elem ∧
          (∀ p ∈ Nat.repr (i0 + j) :: ps, dotFree p = true) ∧
          K = extKey fullKey (Nat.repr (i0 + j) :: ps) ∧
          (resolveGo elem ps).isSome = true := by
      intro hr hKs
      refine ⟨0, item, [], rfl, ?_, ?_, hr⟩
      · intro p hp
        rw [List.mem_singleton.mp hp, Nat.add_zero]
        exact dotFree_repr i0
      · rw [hKs, Nat.add_zero]; rfl
    cases item with
    | vObj fs =>
      rw [extractForEach] at hK
      rcases List.mem_append.mp hK with hK | hK
      · obtain ⟨k, ps', hkm, hdf, hKe, hres⟩ :=
          extractObj_resolves fs (fullKey ++ "." ++ Nat.repr i0) hitem K hK
        refine ⟨0, .vObj fs, k :: ps', rfl, ?_, ?_, hres⟩
        · intro p hp
          rcases List.mem_cons.mp hp with rfl | hp
          · rw [Nat.add_zero]; exact dotFree_repr i0
          · exact hdf p hp
        · rw [hKe, Nat.add_zero]
          exact joinPre_deep fullKey (Nat.repr i0) (k :: ps') (by simp)
      · exact tailStep K hK
    | vArr items' =>
      rw [extractForEach] at hK
      rcases List.mem_append.mp hK with hK | hK
      · obtain ⟨j', elem', ps', hget, hdf, hKe, hres⟩ :=
          extractArr_resolves items' 0 (fullKey ++ "." ++ Nat.repr i0) hitem K hK
        simp only [Nat.zero_add] at hdf hKe
        have hrGo : (resolveGo (.vArr items') (Nat.repr j' :: ps')).isSome = true := by
          rw [resolveGo_arr_repr, hget]; exact hres
        refine ⟨0, .vArr items', Nat.repr j' :: ps', rfl, ?_, ?_, hrGo⟩
        · intro p hp
          rcases List.mem_cons.mp hp with rfl | hp
          · rw [Nat.add_zero]; exact dotFree_repr i0
          · exact hdf p hp
        · rw [hKe, Nat.add_zero]
          exact joinPre_deep fullKey (Nat.repr i0) (Nat.repr j' :: ps') (by simp)
      · exact tailStep K hK
    | vStr s =>
      simp only [extractForEach] at hK
      rcases List.mem_append.mp hK with hK | hK
      · exact scalarHead rfl (List.mem_singleton.mp hK)
      · exact tailStep K hK
    | vNum m =>
      simp only [extractForEach] at hK
      rcases List.mem_append.mp hK with hK | hK
      · exact scalarHead rfl (List.mem_singleton.mp hK)
      · exact tailStep K hK
    | vBool b =>
      simp only [extractForEach] at hK
      rcases List.mem_append.mp hK with hK | hK
      · exact scalarHead rfl (List.mem_singleton.mp hK)
      · exact tailStep K hK
    | vNull =>
      simp only [extractForEach] at hK
      rcases List.mem_append.mp hK with hK | hK
      · exact scalarHead rfl (List.mem_singleton.mp hK)
      · exact tailStep K hK

theorem extractEntry_resolves (fullKey : String) (v : JSValue)
    (hwf : wfDoc v = true) (hfk : ¬ fullKey = "") :
    ∀ K ∈ extractEntry fullKey v,
      ∃ ps, (∀ p ∈ ps, dotFree p = true) ∧
        K = extKey fullKey ps ∧ (resolveGo v ps).isSome = true := by
  match v with
  | .vObj fs =>
    intro K hK
    obtain ⟨k, ps, _, hdf, hKe, hres⟩ := extractObj_resolves fs fullKey hwf K hK
    refine ⟨k :: ps, hdf, ?_, hres⟩
    rw [hKe]
    exact (extKey_eq_joinPre fullKey (k :: ps) hfk (by simp)).symm
  | .vArr items =>
    intro K hK
    obtain ⟨j, elem, ps, hget, hdf, hKe, hres⟩ :=
      extractForEach_resolves items 0 fullKey hwf hfk K hK
    simp only [Nat.zero_add] at hdf hKe
    refine ⟨Nat.repr j :: ps, hdf, hKe, ?_⟩
    rw [resolveGo_arr_repr, hget]
    exact hres
  | .vStr s =>
    intro K hK
    exact ⟨[], by simp, List.mem_singleton.mp hK, rfl⟩
  | .vNum m =>
    intro K hK
    exact ⟨[], by simp, List.mem_singleton.mp hK, rfl⟩
  | .vBool b =>
    intro K hK
    exact ⟨[], by simp, List.mem_singleton.mp hK, rfl⟩
  | .vNull =>
    intro K hK
    exact ⟨[], by simp, List.mem_singleton.mp hK, rfl⟩
end

/-- Every key produced by `extractAllKeys` on a well-formed document
resolves to a defined value. -/
theorem extractAllKeys_resolves (doc : JSValue) (hwf : wfDoc doc = true) :
    ∀ K ∈ extractAllKeys doc "", (resolveKey doc K).isSome = true := by
  cases doc with
  | vObj fields =>
    intro K hK
    obtain ⟨k, ps, _, hdf, hKe, hres⟩ := extractObj_resolves fields "" hwf K hK
    have hKi : K = intercalateDot (k :: ps) := by
      rw [hKe]; rfl
    rw [resolveKey, hKi, jsSplit_intercalate (k :: ps) (by simp) hdf]
    exact hres
  | vArr items =>
    intro K hK
    obtain ⟨j, elem, ps, hget, hdf, hKe, hres⟩ := extractArr_resolves items 0 "" hwf K hK
    simp only [Nat.zero_add] at hdf hKe
    have hKi : K = intercalateDot (Nat.repr j :: ps) := by
      rw [hKe]; rfl
    rw [resolveKey, hKi, jsSplit_intercalate (Nat.repr j :: ps) (by simp) hdf]
    rw [resolveGo_arr_repr, hget]
    exact hres
  | vStr s =>
    intro K hK
    obtain ⟨j, hj, hK⟩ := extractStrEntries_mem s.length 0 "" K hK
    rw [Nat.zero_add] at hK
    have hKj : K = Nat.repr j := by rw [hK]; rfl
    rw [resolveKey, hKj]
    have hsplit : jsSplit '.' (Nat.repr j) = [Nat.repr j] := by
      rw [jsSplit, splitCharAux_no_sep _ [] (dotFree_chars (dotFree_repr j))]
      rfl
    rw [hsplit]
    have hred : resolveGo (.vStr s) [Nat.repr j]
        = if (JSValue.vStr s).truthy = true then
            match jsOwnProp (.vStr s) (Nat.repr j) with
            | some v => resolveGo v []
            | none => none
          else none := rfl
    rw [hred]
    have hne : ¬ s = "" := by
      intro he
      rw [he] at hj
      simp [String.length] at hj
    have htr : (JSValue.vStr s).truthy = true := by
      simp [JSValue.truthy, hne]
    rw [if_pos htr]
    have hlen : ¬ Nat.repr j = "length" := by
      intro he
      have hd := congrArg String.data he
      rw [natRepr_data] at hd
      obtain ⟨c, cs, heq, hc⟩ := digit_list_head (n := j)
      rw [heq, show ("length" : String).data = 'l' :: "ength".data from rfl] at hd
      have hcl : c = 'l' := (List.cons.injEq _ _ _ _ ▸ hd).1
      rw [hcl] at hc
      exact absurd hc (by decide)
    have hown : jsOwnProp (.vStr s) (Nat.repr j)
        = match s.data.get? j with
          | some c => some (.vStr ⟨[c]⟩)
          | none => none := by
      rw [jsOwnProp, if_neg hlen, canonicalIndex_repr]
    rw [hown]
    cases hg : s.data.get? j with
    | none =>
      exfalso
      rw [List.get?_eq_none] at hg
      have : j < s.data.length := hj
      omega
    | some c => rfl
  | vNum m => intro K hK; exact absurd hK (by simp [extractAllKeys])
  | vBool b => intro K hK; exact absurd hK (by simp [extractAllKeys])
  | vNull => intro K hK; exact absurd hK (by simp [extractAllKeys])

/-- `calculateScore` flattened: the `reduce` over the four penalties as a
single arithmetic expression. -/
theorem calculateScore_flat (report : Report) (config : GradingConfig) :
    calculateScore report config =
      max 0 (1 -
        ((report.missingKeys.length : ℚ) * jsOrD config.missingKeyWeight (4/10) +
         (report.hardcodedStrings.length : ℚ) * jsOrD config.hardcodedWeight (3/10) +
         (report.malformedKeys.length : ℚ) * jsOrD config.malformedWeight (2/10) +
         (report.unusedKeys.length : ℚ) * jsOrD config.unusedKeyWeight (1/10)) / 10) := by
  simp only [calculateScore, List.foldl_cons, List.foldl_nil]
  ring_nf

theorem jsOrD_nonneg {v : Option ℚ} {d : ℚ} (hv : optNonneg v = true) (hd : 0 ≤ d) :
    0 ≤ jsOrD v d := by
  cases v with
  | none => exact hd
  | some x =>
    rw [optNonneg, decide_eq_true_eq] at hv
    rw [jsOrD]
    split
    · exact hd
    · exact hv

theorem score_step_le (P w : ℚ) (hw : 0 ≤ w) :
    max 0 (1 - (P + w) / 10) ≤ max 0 (1 - P / 10) := by
  apply max_le_max (le_refl (0 : ℚ))
  have h10 : (0 : ℚ) ≤ w / 10 := by positivity
  have he : (P + w) / 10 = P / 10 + w / 10 := by ring
  linarith

theorem score_bounds (P : ℚ) (hP : 0 ≤ P) :
    0 ≤ max 0 (1 - P / 10) ∧ max 0 (1 - P / 10) ≤ 1 := by
  constructor
  · exact le_max_left 0 _
  · apply max_le (by norm_num)
    have : (0 : ℚ) ≤ P / 10 := by positivity
    linarith

/-! ## Claim C7 -/

/-- C7: if the translation file is absent or fails to parse, the run
returns `success = false`, `score = 0` and a report holding only an error
string; in the absent-file case the error contains the phrase
`Translation file not found`; no scanning, cross-referencing or scoring
stage runs (the result is a fixed value independent of the source files). -/
theorem claim7_load_failure_short_circuits :
    ∀ (config : GradingConfig) (files : List SourceRecord),
      (gradeLanguageImplementation config .notFound files =
        ⟨false, 0, .errorOnly ("Failed to load translation file: Translation file not found: "
          ++ config.translationFile)⟩) ∧
      (∀ msg, gradeLanguageImplementation config (.parseError msg) files =
        ⟨false, 0, .errorOnly ("Failed to load translation file: " ++ msg)⟩) ∧
      (∃ pre post,
        "Failed to load translation file: Translation file not found: "
            ++ config.translationFile
          = pre ++ "Translation file not found" ++ post) := by
  intro config files
  refine ⟨rfl, fun msg => rfl, "Failed to load translation file: ", ": " ++ config.translationFile, ?_⟩
  rw [String.append_assoc]
  rfl

/-! ## Claim C3 -/

/-- C3 as stated is false at a concrete input: with a configured
`missingKeyWeight` of `0` and one missing key, the code scores
`1 − 0.4/10 = 0.96` (the `||` default swallows the configured `0`), while
the claim's formula gives `1`. -/
theorem claim3_counterexample :
    calculateScore ⟨[⟨"f.js", "k"⟩], [], [], []⟩ ⟨"./en.json", none, some 0, none, none, none⟩
        = 96/100 ∧
    claimScoreC3 ⟨[⟨"f.js", "k"⟩], [], [], []⟩ ⟨"./en.json", none, some 0, none, none, none⟩
        = 1 ∧
    calculateScore ⟨[⟨"f.js", "k"⟩], [], [], []⟩ ⟨"./en.json", none, some 0, none, none, none⟩
      ≠ claimScoreC3 ⟨[⟨"f.js", "k"⟩], [], [], []⟩ ⟨"./en.json", none, some 0, none, none, none⟩ := by
  refine ⟨?_, ?_, ?_⟩ <;>
    norm_num [calculateScore, claimScoreC3, claimWeightC3, jsOrD]

/-- C3 amended: the score equals
`max(0, 1 − (m·w₁ + h·w₂ + b·w₃ + u·w₄)/10)` with the fixed divisor 10,
where each weight is the configured value when supplied and nonzero, and
the default `0.4/0.3/0.2/0.1` when the field is absent — or configured as
`0`, since JavaScript `||` treats `0` as falsy. -/
theorem claim3_score_formula :
    ∀ (report : Report) (config : GradingConfig),
      calculateScore report config =
        max 0 (1 -
          ((report.missingKeys.length : ℚ) * effectiveWeight config.missingKeyWeight (4/10) +
           (report.hardcodedStrings.length : ℚ) * effectiveWeight config.hardcodedWeight (3/10) +
           (report.malformedKeys.length : ℚ) * effectiveWeight config.malformedWeight (2/10) +
           (report.unusedKeys.length : ℚ) * effectiveWeight config.unusedKeyWeight (1/10)) / 10) := by
  intro report config
  have h : ∀ v d, jsOrD v d = effectiveWeight v d := by
    intro v d; cases v <;> rfl
  simp only [calculateScore, List.foldl_cons, List.foldl_nil, h]
  ring_nf

/-! ## Claim C4 -/

/-- C4 as stated is false at a concrete input: with configured
`minimumScore = 0` (in `[0,1]`) and a completed run of score
`0.76 ≥ 0`, the code still returns `success = false`, because
`config.minimumScore || 0.8` replaces the configured `0` by `0.8`. -/
theorem claim4_counterexample :
    (gradeLanguageImplementation ⟨"./en.json", some 0, none, none, none, none⟩
        (.ok (.vObj .nil))
        [⟨"f.js", "i18n.t('k1')i18n.t('k2')i18n.t('k3')i18n.t('k4')i18n.t('k5')i18n.t('k6')"⟩]).score
      = 76/100 ∧
    (0 : ℚ) ≤ (gradeLanguageImplementation ⟨"./en.json", some 0, none, none, none, none⟩
        (.ok (.vObj .nil))
        [⟨"f.js", "i18n.t('k1')i18n.t('k2')i18n.t('k3')i18n.t('k4')i18n.t('k5')i18n.t('k6')"⟩]).score ∧
    (gradeLanguageImplementation ⟨"./en.json", some 0, none, none, none, none⟩
        (.ok (.vObj .nil))
        [⟨"f.js", "i18n.t('k1')i18n.t('k2')i18n.t('k3')i18n.t('k4')i18n.t('k5')i18n.t('k6')"⟩]).success
      = false := by
  have hs : (gradeLanguageImplementation ⟨"./en.json", some 0, none, none, none, none⟩
        (.ok (.vObj .nil))
        [⟨"f.js", "i18n.t('k1')i18n.t('k2')i18n.t('k3')i18n.t('k4')i18n.t('k5')i18n.t('k6')"⟩]).score
      = calculateScore ⟨[⟨"f.js", "k1"⟩, ⟨"f.js", "k2"⟩, ⟨"f.js", "k3"⟩,
          ⟨"f.js", "k4"⟩, ⟨"f.js", "k5"⟩, ⟨"f.js", "k6"⟩], [], [], []⟩
          ⟨"./en.json", some 0, none, none, none, none⟩ := rfl
  have hv : calculateScore ⟨[⟨"f.js", "k1"⟩, ⟨"f.js", "k2"⟩, ⟨"f.js", "k3"⟩,
          ⟨"f.js", "k4"⟩, ⟨"f.js", "k5"⟩, ⟨"f.js", "k6"⟩], [], [], []⟩
          ⟨"./en.json", some 0, none, none, none, none⟩ = 76/100 := by
    norm_num [calculateScore, jsOrD]
  have hsc : (gradeLanguageImplementation ⟨"./en.json", some 0, none, none, none, none⟩
        (.ok (.vObj .nil))
        [⟨"f.js", "i18n.t('k1')i18n.t('k2')i18n.t('k3')i18n.t('k4')i18n.t('k5')i18n.t('k6')"⟩]).success
      = decide (calculateScore ⟨[⟨"f.js", "k1"⟩, ⟨"f.js", "k2"⟩, ⟨"f.js", "k3"⟩,
          ⟨"f.js", "k4"⟩, ⟨"f.js", "k5"⟩, ⟨"f.js", "k6"⟩], [], [], []⟩
          ⟨"./en.json", some 0, none, none, none, none⟩ ≥ jsOrD (some 0) (8/10)) := rfl
  refine ⟨hs.trans hv, ?_, ?_⟩
  · rw [hs, hv]; norm_num
  · rw [hsc, decide_eq_false_iff_not]
    rw [hv]
    norm_num [jsOrD]

/-- C4 amended: for every completed (non-fatal) run, `success` is true
iff the score is at least the effective minimum, which is the configured
`minimumScore` when supplied and nonzero, and `0.8` when the field is
absent — or configured as `0` (JavaScript `||`). -/
theorem claim4_success_threshold :
    ∀ (config : GradingConfig) (doc : JSValue) (files : List SourceRecord),
      (gradeLanguageImplementation config (.ok doc) files).success = true ↔
        (gradeLanguageImplementation config (.ok doc) files).score
          ≥ effectiveMinimum config := by
  intro config doc files
  have h : (gradeLanguageImplementation config (.ok doc) files).success
      = decide ((gradeLanguageImplementation config (.ok doc) files).score
          ≥ jsOrD config.minimumScore (8/10)) := rfl
  rw [h, decide_eq_true_eq]
  have h2 : jsOrD config.minimumScore (8/10) = effectiveMinimum config := by
    cases hc : config.minimumScore <;> simp [jsOrD, effectiveMinimum, hc]
  rw [h2]

/-! ## Claim C6 -/

/-- C6 as stated is false at a concrete input: the classifier tests the
raw length, not the trimmed length, so `" ab "` (raw length 4, trimmed
length 2) is flagged although the claim's reading says it must not be. -/
theorem claim6_counterexample :
    shouldFlagAsHardcoded " ab " = true ∧ (jsTrim " ab ").length = 2 ∧
      claimShouldFlagC6 " ab " = false := by
  exact ⟨rfl, rfl, rfl⟩

/-- C6 amended: `shouldFlagAsHardcoded(text)` returns true iff the raw
(not trimmed) length of `text` exceeds 3, `text` is not all-whitespace,
and none of the exclusions match: starts with `{`, `}` or `$`; entirely
digits; 1–3 lowercase letters; `#` followed by hex digits; entirely
uppercase letters/underscores; exactly `className`; exactly `testID`.
At the grader's call sites the argument is already trimmed, so the four
quoted examples hold as claimed: `shouldFlag("Hi") = false`,
`shouldFlag("#fff") = false`, `shouldFlag("PRICE") = false`,
`shouldFlag("Hello World") = true`. -/
theorem claim6_classifier :
    (∀ text : String,
      shouldFlagAsHardcoded text = true ↔
        (3 < text.length ∧
         ¬ (∃ c cs, text.data = c :: cs ∧ (c = lbrace ∨ c = rbrace ∨ c = '$')) ∧
         ¬ (text.data ≠ [] ∧ ∀ c ∈ text.data, isDecDigit c = true) ∧
         ¬ (1 ≤ text.data.length ∧ text.data.length ≤ 3 ∧ ∀ c ∈ text.data, isLowerAl c = true) ∧
         ¬ (∃ cs, text.data = '#' :: cs ∧ cs ≠ [] ∧ ∀ c ∈ cs, isHexDigitCh c = true) ∧
         ¬ (text.data ≠ [] ∧ ∀ c ∈ text.data, (isUpperAl c = true ∨ c = '_')) ∧
         text ≠ "className" ∧ text ≠ "testID" ∧
         ¬ (∀ c ∈ text.data, jsIsSpace c = true))) ∧
    shouldFlagAsHardcoded "Hi" = false ∧
    shouldFlagAsHardcoded "#fff" = false ∧
    shouldFlagAsHardcoded "PRICE" = false ∧
    shouldFlagAsHardcoded "Hello World" = true := by
  refine ⟨?_, rfl, rfl, rfl, rfl⟩
  intro text
  rw [shouldFlagAsHardcoded, excludeTest]
  simp only [Bool.and_eq_true, Bool.not_eq_true', Bool.eq_false_iff, ne_eq,
    Bool.or_eq_true, not_or, decide_eq_true_eq,
    startsBraceDollar_iff, digitsOnly_iff, lower1to3_iff, hexColor_iff,
    upperConst_iff, wsOnly_iff, string_length_data]
  tauto

/-! ## Claim C1 -/

/-- C1 as stated is false at a concrete input: for the document
`{a: ""}` the key `"a"` resolves to the defined (but falsy) empty
string, yet the run reports it in `missingKeys`, because the code tests
`!resolveKey(...)` (truthiness), not undefinedness. -/
theorem claim1_counterexample :
    resolveKey (.vObj (.cons "a" (.vStr "") .nil)) "a" = some (.vStr "") ∧
    resultMissingKeys (gradeLanguageImplementation defaultConfig
        (.ok (.vObj (.cons "a" (.vStr "") .nil))) [⟨"f.js", "i18n.t('a')"⟩])
      = [⟨"f.js", "a"⟩] := by
  exact ⟨rfl, rfl⟩

/-- C1 amended: for every completed grading run and every usage finding
with key `k` scanned from a file, an entry `{file, key: k}` is appended
to `report.missingKeys` iff `resolveKey(document, k)` is *falsy* —
undefined, `null`, `false`, `0`, or the empty string.  In particular a
key resolving to a defined-but-falsy leaf such as `""` *is* reported. -/
theorem claim1_missing_iff_falsy :
    ∀ (doc : JSValue) (config : GradingConfig) (files : List SourceRecord)
      (path text key : String),
      (⟨path, text⟩ : SourceRecord) ∈ files →
      key ∈ scanKeys text →
      ((⟨path, key⟩ : UsageFinding) ∈
          resultMissingKeys (gradeLanguageImplementation config (.ok doc) files) ↔
        jsOptTruthy (resolveKey doc key) = false) := by
  intro doc config files path text key hfile hkey
  have hres : resultMissingKeys (gradeLanguageImplementation config (.ok doc) files)
      = files.flatMap (fileMissing doc) := rfl
  rw [hres]
  constructor
  · intro hmem
    rcases List.mem_flatMap.mp hmem with ⟨rec, _, hin⟩
    rw [fileMissing] at hin
    rcases List.mem_filterMap.mp hin with ⟨k', _, hsome⟩
    by_cases ht : jsOptTruthy (resolveKey doc k') = true
    · rw [if_pos ht] at hsome
      exact Option.noConfusion hsome
    · rw [if_neg ht] at hsome
      simp only [Option.some.injEq, UsageFinding.mk.injEq] at hsome
      rcases hsome with ⟨-, rfl⟩
      exact Bool.eq_false_iff.mpr ht
  · intro hfalsy
    refine List.mem_flatMap.mpr ⟨⟨path, text⟩, hfile, ?_⟩
    rw [fileMissing]
    refine List.mem_filterMap.mpr ⟨key, hkey, ?_⟩
    simp [hfalsy]

/-- Witness for the amended C1 at a concrete run. -/
theorem claim1_missing_iff_falsy_witness :
    (⟨"f.js", "a"⟩ : UsageFinding) ∈
        resultMissingKeys (gradeLanguageImplementation defaultConfig
          (.ok (.vObj (.cons "a" (.vStr "") .nil))) [⟨"f.js", "i18n.t('a')"⟩]) ↔
      jsOptTruthy (resolveKey (.vObj (.cons "a" (.vStr "") .nil)) "a") = false :=
  claim1_missing_iff_falsy (.vObj (.cons "a" (.vStr "") .nil)) defaultConfig
    [⟨"f.js", "i18n.t('a')"⟩] "f.js" "i18n.t('a')" "a"
    (by decide) (by decide)

/-! ## Claim C5 -/

/-- C5 as stated is false on the grader: its `missingKeys` and
`hardcodedStrings` entries carry no `line` field at all.  Two runs whose
single usage of `'x'` sits on line 1 and line 2 respectively produce
*identical* `missingKeys` entries, so no field of the finding can equal
the 1-based line number of the match. -/
theorem claim5_counterexample :
    resultMissingKeys (gradeLanguageImplementation defaultConfig
        (.ok (.vObj .nil)) [⟨"f.js", "i18n.t('x')\n"⟩]) = [⟨"f.js", "x"⟩] ∧
    resultMissingKeys (gradeLanguageImplementation defaultConfig
        (.ok (.vObj .nil)) [⟨"f.js", "\ni18n.t('x')"⟩]) = [⟨"f.js", "x"⟩] ∧
    scanI18n ("i18n.t('x')\n").data = [("x", 0)] ∧
    scanI18n ("\ni18n.t('x')").data = [("x", 1)] ∧
    getLineNumber "i18n.t('x')\n" 0 = 1 ∧
    getLineNumber "\ni18n.t('x')" 1 = 2 := by
  exact ⟨rfl, rfl, rfl, rfl, rfl, rfl⟩

/-- C5 amended: the grader's findings carry only `{file, key}` /
`{file, text}`; it is the FileScanner's `analyzeI18nUsage` whose findings
carry a `line` field, computed by `getLineNumber` as the count of newline
characters strictly before the match start, plus one. -/
theorem claim5_line_numbers :
    (∀ (content : String) (index : Nat),
      getLineNumber content index = (content.data.take index).count '\n' + 1) ∧
    (∀ content : String,
      (analyzeI18nUsage content).1 =
        (scanI18n content.data).map
          (fun m => ⟨m.1, (content.data.take m.2).count '\n' + 1⟩) ∧
      (analyzeI18nUsage content).2 =
        (scanHC content.data).filterMap (fun m =>
          if shouldFlagAsHardcoded (jsTrim m.1) then
            some ⟨jsTrim m.1, (content.data.take m.2).count '\n' + 1⟩
          else none)) := by
  have hln : ∀ (content : String) (index : Nat),
      getLineNumber content index = (content.data.take index).count '\n' + 1 := by
    intro content index
    rw [getLineNumber, jsSplit]
    exact splitCharAux_length '\n' _ []
  refine ⟨hln, fun content => ⟨?_, ?_⟩⟩
  · have h1 : (analyzeI18nUsage content).1
        = (scanI18n content.data).map
            (fun m => (⟨m.1, getLineNumber content m.2⟩ : KeyUsage)) := rfl
    have hf : (fun (m : String × Nat) => (⟨m.1, getLineNumber content m.2⟩ : KeyUsage))
        = fun m => ⟨m.1, (content.data.take m.2).count '\n' + 1⟩ := by
      funext m; rw [hln]
    rw [h1, hf]
  · have h2 : (analyzeI18nUsage content).2
        = (scanHC content.data).filterMap (fun m =>
            if shouldFlagAsHardcoded (jsTrim m.1) then
              some (⟨jsTrim m.1, getLineNumber content m.2⟩ : HardcodedUsage)
            else none) := rfl
    have hf : (fun (m : String × Nat) =>
          if shouldFlagAsHardcoded (jsTrim m.1) then
            some (⟨jsTrim m.1, getLineNumber content m.2⟩ : HardcodedUsage)
          else none)
        = fun m =>
          if shouldFlagAsHardcoded (jsTrim m.1) then
            some ⟨jsTrim m.1, (content.data.take m.2).count '\n' + 1⟩
          else none := by
      funext m; rw [hln]
    rw [h2, hf]

/-! ## Claim C8 -/

/-- C8 as stated is false at a concrete input: a configuration may
supply a negative weight (`missingKeyWeight = -1` is truthy, so it is
used), and then appending a missing-key finding *raises* the score from
`1` to `1.1`, which also leaves `[0, 1]`. -/
theorem claim8_counterexample :
    calculateScore ⟨[], [], [], []⟩ ⟨"./en.json", none, some (-1), none, none, none⟩ = 1 ∧
    calculateScore ⟨[⟨"f.js", "k"⟩], [], [], []⟩
        ⟨"./en.json", none, some (-1), none, none, none⟩ = 11/10 ∧
    calculateScore ⟨[], [], [], []⟩ ⟨"./en.json", none, some (-1), none, none, none⟩ <
      calculateScore ⟨[⟨"f.js", "k"⟩], [], [], []⟩
        ⟨"./en.json", none, some (-1), none, none, none⟩ ∧
    (1 : ℚ) < calculateScore ⟨[⟨"f.js", "k"⟩], [], [], []⟩
        ⟨"./en.json", none, some (-1), none, none, none⟩ := by
  have h0 : calculateScore ⟨[], [], [], []⟩
      ⟨"./en.json", none, some (-1), none, none, none⟩ = 1 := by
    rw [calculateScore_flat]
    norm_num
  have h1 : calculateScore ⟨[⟨"f.js", "k"⟩], [], [], []⟩
      ⟨"./en.json", none, some (-1), none, none, none⟩ = 11/10 := by
    rw [calculateScore_flat]
    norm_num [jsOrD]
  refine ⟨h0, h1, ?_, ?_⟩
  · rw [h0, h1]; norm_num
  · rw [h1]; norm_num

/-- C8 amended: for every report and every configuration whose supplied
weights are all nonnegative, the computed score lies in `[0, 1]` and
appending any single additional finding of any of the four kinds never
increases it.  (An adversarial negative configured weight breaks both.) -/
theorem claim8_monotonicity :
    ∀ (report : Report) (config : GradingConfig),
      suppliedWeightsNonneg config = true →
      (0 ≤ calculateScore report config ∧ calculateScore report config ≤ 1) ∧
      (∀ f, calculateScore ⟨report.missingKeys ++ [f], report.hardcodedStrings,
          report.unusedKeys, report.malformedKeys⟩ config ≤ calculateScore report config) ∧
      (∀ f, calculateScore ⟨report.missingKeys, report.hardcodedStrings ++ [f],
          report.unusedKeys, report.malformedKeys⟩ config ≤ calculateScore report config) ∧
      (∀ k, calculateScore ⟨report.missingKeys, report.hardcodedStrings,
          report.unusedKeys ++ [k], report.malformedKeys⟩ config ≤ calculateScore report config) ∧
      (∀ f, calculateScore ⟨report.missingKeys, report.hardcodedStrings,
          report.unusedKeys, report.malformedKeys ++ [f]⟩ config ≤ calculateScore report config) := by
  intro report config hcfg
  rw [suppliedWeightsNonneg, Bool.and_eq_true, Bool.and_eq_true, Bool.and_eq_true] at hcfg
  obtain ⟨⟨⟨hw1, hw2⟩, hw3⟩, hw4⟩ := hcfg
  have h1 : 0 ≤ jsOrD config.missingKeyWeight (4/10) := jsOrD_nonneg hw1 (by norm_num)
  have h2 : 0 ≤ jsOrD config.hardcodedWeight (3/10) := jsOrD_nonneg hw2 (by norm_num)
  have h3 : 0 ≤ jsOrD config.malformedWeight (2/10) := jsOrD_nonneg hw3 (by norm_num)
  have h4 : 0 ≤ jsOrD config.unusedKeyWeight (1/10) := jsOrD_nonneg hw4 (by norm_num)
  have hP : 0 ≤ (report.missingKeys.length : ℚ) * jsOrD config.missingKeyWeight (4/10) +
      (report.hardcodedStrings.length : ℚ) * jsOrD config.hardcodedWeight (3/10) +
      (report.malformedKeys.length : ℚ) * jsOrD config.malformedWeight (2/10) +
      (report.unusedKeys.length : ℚ) * jsOrD config.unusedKeyWeight (1/10) := by
    positivity
  refine ⟨?_, ?_, ?_, ?_, ?_⟩
  · rw [calculateScore_flat]
    exact score_bounds _ hP
  · intro f
    rw [calculateScore_flat, calculateScore_flat]
    have hlen : ((report.missingKeys ++ [f]).length : ℚ) = (report.missingKeys.length : ℚ) + 1 := by
      push_cast [List.length_append, List.length_singleton]
      ring
    simp only [hlen]
    have := score_step_le
      ((report.missingKeys.length : ℚ) * jsOrD config.missingKeyWeight (4/10) +
       (report.hardcodedStrings.length : ℚ) * jsOrD config.hardcodedWeight (3/10) +
       (report.malformedKeys.length : ℚ) * jsOrD config.malformedWeight (2/10) +
       (report.unusedKeys.length : ℚ) * jsOrD config.unusedKeyWeight (1/10))
      (jsOrD config.missingKeyWeight (4/10)) h1
    calc max 0 (1 - (((report.missingKeys.length : ℚ) + 1) * jsOrD config.missingKeyWeight (4/10) +
          (report.hardcodedStrings.length : ℚ) * jsOrD config.hardcodedWeight (3/10) +
          (report.malformedKeys.length : ℚ) * jsOrD config.malformedWeight (2/10) +
          (report.unusedKeys.length : ℚ) * jsOrD config.unusedKeyWeight (1/10)) / 10)
        = max 0 (1 - (((report.missingKeys.length : ℚ) * jsOrD config.missingKeyWeight (4/10) +
          (report.hardcodedStrings.length : ℚ) * jsOrD config.hardcodedWeight (3/10) +
          (report.malformedKeys.length : ℚ) * jsOrD config.malformedWeight (2/10) +
          (report.unusedKeys.length : ℚ) * jsOrD config.unusedKeyWeight (1/10)) +
          jsOrD config.missingKeyWeight (4/10)) / 10) := by ring_nf
      _ ≤ _ := this
  · intro f
    rw [calculateScore_flat, calculateScore_flat]
    have hlen : ((report.hardcodedStrings ++ [f]).length : ℚ)
        = (report.hardcodedStrings.length : ℚ) + 1 := by
      push_cast [List.length_append, List.length_singleton]
      ring
    simp only [hlen]
    have := score_step_le
      ((report.missingKeys.length : ℚ) * jsOrD config.missingKeyWeight (4/10) +
       (report.hardcodedStrings.length : ℚ) * jsOrD config.hardcodedWeight (3/10) +
       (report.malformedKeys.length : ℚ) * jsOrD config.malformedWeight (2/10) +
       (report.unusedKeys.length : ℚ) * jsOrD config.unusedKeyWeight (1/10))
      (jsOrD config.hardcodedWeight (3/10)) h2
    calc max 0 (1 - ((report.missingKeys.length : ℚ) * jsOrD config.missingKeyWeight (4/10) +
          ((report.hardcodedStrings.length : ℚ) + 1) * jsOrD config.hardcodedWeight (3/10) +
          (report.malformedKeys.length : ℚ) * jsOrD config.malformedWeight (2/10) +
          (report.unusedKeys.length : ℚ) * jsOrD config.unusedKeyWeight (1/10)) / 10)
        = max 0 (1 - (((report.missingKeys.length : ℚ) * jsOrD config.missingKeyWeight (4/10) +
          (report.hardcodedStrings.length : ℚ) * jsOrD config.hardcodedWeight (3/10) +
          (report.malformedKeys.length : ℚ) * jsOrD config.malformedWeight (2/10) +
          (report.unusedKeys.length : ℚ) * jsOrD config.unusedKeyWeight (1/10)) +
          jsOrD config.hardcodedWeight (3/10)) / 10) := by ring_nf
      _ ≤ _ := this
  · intro k
    rw [calculateScore_flat, calculateScore_flat]
    have hlen : ((report.unusedKeys ++ [k]).length : ℚ)
        = (report.unusedKeys.length : ℚ) + 1 := by
      push_cast [List.length_append, List.length_singleton]
      ring
    simp only [hlen]
    have := score_step_le
      ((report.missingKeys.length : ℚ) * jsOrD config.missingKeyWeight (4/10) +
       (report.hardcodedStrings.length : ℚ) * jsOrD config.hardcodedWeight (3/10) +
       (report.malformedKeys.length : ℚ) * jsOrD config.malformedWeight (2/10) +
       (report.unusedKeys.length : ℚ) * jsOrD config.unusedKeyWeight (1/10))
      (jsOrD config.unusedKeyWeight (1/10)) h4
    calc max 0 (1 - ((report.missingKeys.length : ℚ) * jsOrD config.missingKeyWeight (4/10) +
          (report.hardcodedStrings.length : ℚ) * jsOrD config.hardcodedWeight (3/10) +
          (report.malformedKeys.length : ℚ) * jsOrD config.malformedWeight (2/10) +
          ((report.unusedKeys.length : ℚ) + 1) * jsOrD config.unusedKeyWeight (1/10)) / 10)
        = max 0 (1 - (((report.missingKeys.length : ℚ) * jsOrD config.missingKeyWeight (4/10) +
          (report.hardcodedStrings.length : ℚ) * jsOrD config.hardcodedWeight (3/10) +
          (report.malformedKeys.length : ℚ) * jsOrD config.malformedWeight (2/10) +
          (report.unusedKeys.length : ℚ) * jsOrD config.unusedKeyWeight (1/10)) +
          jsOrD config.unusedKeyWeight (1/10)) / 10) := by ring_nf
      _ ≤ _ := this
  · intro f
    rw [calculateScore_flat, calculateScore_flat]
    have hlen : ((report.malformedKeys ++ [f]).length : ℚ)
        = (report.malformedKeys.length : ℚ) + 1 := by
      push_cast [List.length_append, List.length_singleton]
      ring
    simp only [hlen]
    have := score_step_le
      ((report.missingKeys.length : ℚ) * jsOrD config.missingKeyWeight (4/10) +
       (report.hardcodedStrings.length : ℚ) * jsOrD config.hardcodedWeight (3/10) +
       (report.malformedKeys.length : ℚ) * jsOrD config.malformedWeight (2/10) +
       (report.unusedKeys.length : ℚ) * jsOrD config.unusedKeyWeight (1/10))
      (jsOrD config.malformedWeight (2/10)) h3
    calc max 0 (1 - ((report.missingKeys.length : ℚ) * jsOrD config.missingKeyWeight (4/10) +
          (report.hardcodedStrings.length : ℚ) * jsOrD config.hardcodedWeight (3/10) +
          ((report.malformedKeys.length : ℚ) + 1) * jsOrD config.malformedWeight (2/10) +
          (report.unusedKeys.length : ℚ) * jsOrD config.unusedKeyWeight (1/10)) / 10)
        = max 0 (1 - (((report.missingKeys.length : ℚ) * jsOrD config.missingKeyWeight (4/10) +
          (report.hardcodedStrings.length : ℚ) * jsOrD config.hardcodedWeight (3/10) +
          (report.malformedKeys.length : ℚ) * jsOrD config.malformedWeight (2/10) +
          (report.unusedKeys.length : ℚ) * jsOrD config.unusedKeyWeight (1/10)) +
          jsOrD config.malformedWeight (2/10)) / 10) := by ring_nf
      _ ≤ _ := this

/-- Witness for the amended C8 at a concrete report and configuration. -/
theorem claim8_monotonicity_witness :
    (0 ≤ calculateScore ⟨[], [], [], []⟩ defaultConfig ∧
      calculateScore ⟨[], [], [], []⟩ defaultConfig ≤ 1) ∧
    (∀ f, calculateScore ⟨[] ++ [f], [], [], []⟩ defaultConfig
        ≤ calculateScore ⟨[], [], [], []⟩ defaultConfig) ∧
    (∀ f, calculateScore ⟨[], [] ++ [f], [], []⟩ defaultConfig
        ≤ calculateScore ⟨[], [], [], []⟩ defaultConfig) ∧
    (∀ k, calculateScore ⟨[], [], [] ++ [k], []⟩ defaultConfig
        ≤ calculateScore ⟨[], [], [], []⟩ defaultConfig) ∧
    (∀ f, calculateScore ⟨[], [], [], [] ++ [f]⟩ defaultConfig
        ≤ calculateScore ⟨[], [], [], []⟩ defaultConfig) :=
  claim8_monotonicity ⟨[], [], [], []⟩ defaultConfig rfl

/-! ## Claim C10 -/

theorem hcLazyTail_chars :
    ∀ (cs acc body : List Char) (w : Nat),
      hcLazyTail cs acc = some (body, w) →
      (∀ c ∈ acc, c ≠ '<' ∧ c ≠ lbrace) →
      ∀ c ∈ body, c ≠ '<' ∧ c ≠ lbrace := by
  intro cs
  induction cs with
  | nil => intro acc body w h; exact absurd h (by simp [hcLazyTail])
  | cons c cs ih =>
    intro acc body w h hacc
    rw [hcLazyTail] at h
    by_cases hbad : (c = '<' || c = lbrace) = true
    · rw [if_pos hbad] at h
      exact Option.noConfusion h
    · rw [if_neg hbad] at h
      have hc : c ≠ '<' ∧ c ≠ lbrace := by
        simp only [Bool.or_eq_true, decide_eq_true_eq, not_or] at hbad
        exact hbad
      have hacc' : ∀ d ∈ acc ++ [c], d ≠ '<' ∧ d ≠ lbrace := by
        intro d hd
        rcases List.mem_append.mp hd with hd | hd
        · exact hacc d hd
        · rw [List.mem_singleton.mp hd]; exact hc
      revert h
      split
      · intro h
        cases h
        exact hacc'
      · intro h
        exact ih (acc ++ [c]) body w h hacc'

theorem matchHCAt_capture :
    ∀ (cs : List Char) (cap : String) (len : Nat),
      matchHCAt cs = some (cap, len) →
      ∃ a body, cap.data = a :: body ∧ isAsciiLetter a = true ∧
        ∀ c ∈ body, c ≠ '<' ∧ c ≠ lbrace := by
  intro cs cap len h
  match cs with
  | [] => exact Option.noConfusion h
  | c0 :: rest =>
    rw [matchHCAt] at h
    by_cases h0 : c0 = '>'
    · rw [if_pos h0] at h
      revert h
      split
      · rename_i a rest2 heq
        by_cases ha : isAsciiLetter a = true
        · rw [if_pos ha]
          intro h
          revert h
          split
          · rename_i body wsLen heq2
            intro h
            cases h
            exact ⟨a, body, rfl, ha,
              hcLazyTail_chars rest2 [] body wsLen heq2 (by intro c hc; cases hc)⟩
          · intro h; exact Option.noConfusion h
        · rw [if_neg ha]
          intro h
          exact Option.noConfusion h
      · intro h; exact Option.noConfusion h
    · rw [if_neg h0] at h
      exact Option.noConfusion h

theorem scanHCAux_capture :
    ∀ (fuel : Nat) (cs : List Char) (pos : Nat) (cap : String) (idx : Nat),
      (cap, idx) ∈ scanHCAux fuel cs pos →
      ∃ cs2 len, matchHCAt cs2 = some (cap, len) := by
  intro fuel
  induction fuel with
  | zero => intro cs pos cap idx h; exact absurd h (by simp [scanHCAux])
  | succ fuel ih =>
    intro cs pos cap idx h
    match cs with
    | [] => exact absurd h (by simp [scanHCAux])
    | c :: rest =>
      rw [scanHCAux] at h
      revert h
      split
      · rename_i text len heq
        intro h
        rcases List.mem_cons.mp h with h | h
        · have : cap = text := congrArg Prod.fst h
          exact ⟨c :: rest, len, by rw [this]; exact heq⟩
        · exact ih _ _ cap idx h
      · intro h
        exact ih _ _ cap idx h

/-- C10: every candidate captured by the hardcoded-text pass begins with
an ASCII letter and contains no `<` and no `{` (the capture is
`[A-Za-z][^<{]+?`); consequently inter-tag spans whose first
non-whitespace character is not a letter, or which contain a JSX
expression container, are never reported — e.g. the spans of
`>123 items<` and `>Hello {name}<` produce no match at all. -/
theorem claim10_hardcoded_capture_shape :
    (∀ (text cap : String) (idx : Nat),
      (cap, idx) ∈ scanHC text.data →
      (∃ a body, cap.data = a :: body ∧ isAsciiLetter a = true ∧
        ∀ c ∈ body, c ≠ '<' ∧ c ≠ lbrace)) ∧
    scanHC (">123 items<").data = [] ∧
    scanHC (">Hello \x7bname\x7d<").data = [] := by
  refine ⟨?_, rfl, rfl⟩
  intro text cap idx h
  obtain ⟨cs2, len, hm⟩ := scanHCAux_capture text.data.length text.data 0 cap idx h
  exact matchHCAt_capture cs2 cap len hm

/-- Witness for C10 at a concrete source text with a real capture. -/
theorem claim10_hardcoded_capture_shape_witness :
    ∃ a body, ("Hello World" : String).data = a :: body ∧ isAsciiLetter a = true ∧
      ∀ c ∈ body, c ≠ '<' ∧ c ≠ lbrace :=
  claim10_hardcoded_capture_shape.1 ">Hello World<" "Hello World" 0 (by decide)

/-! ## Claim C9 -/

theorem calculateScore_congr_counts {m1 m2 : List UsageFinding}
    {h1 h2 : List HardcodedFinding} {u1 u2 : List String}
    {b1 b2 : List MalformedFinding} (config : GradingConfig)
    (hm : m1.length = m2.length) (hh : h1.length = h2.length)
    (hu : u1.length = u2.length) (hb : b1.length = b2.length) :
    calculateScore ⟨m1, h1, u1, b1⟩ config = calculateScore ⟨m2, h2, u2, b2⟩ config := by
  rw [calculateScore_flat, calculateScore_flat]
  simp only [hm, hh, hu, hb]

/-- C9: grading a list of source records and grading any permutation of
it yield the same score, the same success flag, the same summary, and
findings equal up to order (the `unusedKeys` list is even equal, since
its order comes from the translation document, not the files). -/
theorem claim9_scan_order_irrelevant :
    ∀ (config : GradingConfig) (lr : LoadResult) (files1 files2 : List SourceRecord),
      files1.Perm files2 →
      (gradeLanguageImplementation config lr files1).score
          = (gradeLanguageImplementation config lr files2).score ∧
      (gradeLanguageImplementation config lr files1).success
          = (gradeLanguageImplementation config lr files2).success ∧
      resultSummary (gradeLanguageImplementation config lr files1)
          = resultSummary (gradeLanguageImplementation config lr files2) ∧
      (resultMissingKeys (gradeLanguageImplementation config lr files1)).Perm
          (resultMissingKeys (gradeLanguageImplementation config lr files2)) ∧
      (resultHardcoded (gradeLanguageImplementation config lr files1)).Perm
          (resultHardcoded (gradeLanguageImplementation config lr files2)) ∧
      (resultMalformed (gradeLanguageImplementation config lr files1)).Perm
          (resultMalformed (gradeLanguageImplementation config lr files2)) ∧
      resultUnused (gradeLanguageImplementation config lr files1)
          = resultUnused (gradeLanguageImplementation config lr files2) := by
  intro config lr files1 files2 hperm
  cases lr with
  | notFound =>
    exact ⟨rfl, rfl, rfl, List.Perm.refl _, List.Perm.refl _, List.Perm.refl _, rfl⟩
  | parseError msg =>
    exact ⟨rfl, rfl, rfl, List.Perm.refl _, List.Perm.refl _, List.Perm.refl _, rfl⟩
  | ok doc =>
    have hU : (files1.flatMap fun r => scanKeys r.text).Perm
        (files2.flatMap fun r => scanKeys r.text) :=
      List.Perm.flatMap_right _ hperm
    have hM : (files1.flatMap (fileMissing doc)).Perm (files2.flatMap (fileMissing doc)) :=
      List.Perm.flatMap_right _ hperm
    have hH : (files1.flatMap fileHardcoded).Perm (files2.flatMap fileHardcoded) :=
      List.Perm.flatMap_right _ hperm
    have hB : (files1.flatMap fileMalformed).Perm (files2.flatMap fileMalformed) :=
      List.Perm.flatMap_right _ hperm
    have hUn : ((extractAllKeys doc "").filter fun key =>
          !(decide (key ∈ files1.flatMap fun r => scanKeys r.text)))
        = (extractAllKeys doc "").filter fun key =>
          !(decide (key ∈ files2.flatMap fun r => scanKeys r.text)) := by
      apply List.filter_congr
      intro a _
      exact congrArg Bool.not (decide_eq_decide.mpr hU.mem_iff)
    have hscore : (gradeLanguageImplementation config (.ok doc) files1).score
        = (gradeLanguageImplementation config (.ok doc) files2).score := by
      have e1 : (gradeLanguageImplementation config (.ok doc) files1).score
          = calculateScore ⟨files1.flatMap (fileMissing doc), files1.flatMap fileHardcoded,
              (extractAllKeys doc "").filter fun key =>
                !(decide (key ∈ files1.flatMap fun r => scanKeys r.text)),
              files1.flatMap fileMalformed⟩ config := rfl
      have e2 : (gradeLanguageImplementation config (.ok doc) files2).score
          = calculateScore ⟨files2.flatMap (fileMissing doc), files2.flatMap fileHardcoded,
              (extractAllKeys doc "").filter fun key =>
                !(decide (key ∈ files2.flatMap fun r => scanKeys r.text)),
              files2.flatMap fileMalformed⟩ config := rfl
      rw [e1, e2, hUn]
      exact calculateScore_congr_counts config hM.length_eq hH.length_eq rfl hB.length_eq
    refine ⟨hscore, ?_, ?_, hM, hH, hB, hUn⟩
    · have e1 : (gradeLanguageImplementation config (.ok doc) files1).success
          = decide ((gradeLanguageImplementation config (.ok doc) files1).score
              ≥ jsOrD config.minimumScore (8/10)) := rfl
      have e2 : (gradeLanguageImplementation config (.ok doc) files2).success
          = decide ((gradeLanguageImplementation config (.ok doc) files2).score
              ≥ jsOrD config.minimumScore (8/10)) := rfl
      rw [e1, e2, hscore]
    · have e1 : resultSummary (gradeLanguageImplementation config (.ok doc) files1)
          = some ⟨files1.length, (extractAllKeys doc "").length,
              (files1.flatMap fun r => scanKeys r.text).dedup.length,
              (files1.flatMap (fileMissing doc)).length,
              (files1.flatMap fileHardcoded).length,
              ((extractAllKeys doc "").filter fun key =>
                !(decide (key ∈ files1.flatMap fun r => scanKeys r.text))).length,
              (files1.flatMap fileMalformed).length,
              (gradeLanguageImplementation config (.ok doc) files1).score⟩ := rfl
      have e2 : resultSummary (gradeLanguageImplementation config (.ok doc) files2)
          = some ⟨files2.length, (extractAllKeys doc "").length,
              (files2.flatMap fun r => scanKeys r.text).dedup.length,
              (files2.flatMap (fileMissing doc)).length,
              (files2.flatMap fileHardcoded).length,
              ((extractAllKeys doc "").filter fun key =>
                !(decide (key ∈ files2.flatMap fun r => scanKeys r.text))).length,
              (files2.flatMap fileMalformed).length,
              (gradeLanguageImplementation config (.ok doc) files2).score⟩ := rfl
      rw [e1, e2, hperm.length_eq, hU.dedup.length_eq, hM.length_eq, hH.length_eq,
        hB.length_eq, hUn, hscore]

/-- Witness for C9 at a concrete permutation of two source records. -/
theorem claim9_scan_order_irrelevant_witness :
    (gradeLanguageImplementation defaultConfig (.ok (.vObj .nil))
        [⟨"a.js", "i18n.t('x')"⟩, ⟨"b.js", ">Hello World<"⟩]).score
        = (gradeLanguageImplementation defaultConfig (.ok (.vObj .nil))
        [⟨"b.js", ">Hello World<"⟩, ⟨"a.js", "i18n.t('x')"⟩]).score ∧
    (gradeLanguageImplementation defaultConfig (.ok (.vObj .nil))
        [⟨"a.js", "i18n.t('x')"⟩, ⟨"b.js", ">Hello World<"⟩]).success
        = (gradeLanguageImplementation defaultConfig (.ok (.vObj .nil))
        [⟨"b.js", ">Hello World<"⟩, ⟨"a.js", "i18n.t('x')"⟩]).success ∧
    resultSummary (gradeLanguageImplementation defaultConfig (.ok (.vObj .nil))
        [⟨"a.js", "i18n.t('x')"⟩, ⟨"b.js", ">Hello World<"⟩])
        = resultSummary (gradeLanguageImplementation defaultConfig (.ok (.vObj .nil))
        [⟨"b.js", ">Hello World<"⟩, ⟨"a.js", "i18n.t('x')"⟩]) ∧
    (resultMissingKeys (gradeLanguageImplementation defaultConfig (.ok (.vObj .nil))
        [⟨"a.js", "i18n.t('x')"⟩, ⟨"b.js", ">Hello World<"⟩])).Perm
        (resultMissingKeys (gradeLanguageImplementation defaultConfig (.ok (.vObj .nil))
        [⟨"b.js", ">Hello World<"⟩, ⟨"a.js", "i18n.t('x')"⟩])) ∧
    (resultHardcoded (gradeLanguageImplementation defaultConfig (.ok (.vObj .nil))
        [⟨"a.js", "i18n.t('x')"⟩, ⟨"b.js", ">Hello World<"⟩])).Perm
        (resultHardcoded (gradeLanguageImplementation defaultConfig (.ok (.vObj .nil))
        [⟨"b.js", ">Hello World<"⟩, ⟨"a.js", "i18n.t('x')"⟩])) ∧
    (resultMalformed (gradeLanguageImplementation defaultConfig (.ok (.vObj .nil))
        [⟨"a.js", "i18n.t('x')"⟩, ⟨"b.js", ">Hello World<"⟩])).Perm
        (resultMalformed (gradeLanguageImplementation defaultConfig (.ok (.vObj .nil))
        [⟨"b.js", ">Hello World<"⟩, ⟨"a.js", "i18n.t('x')"⟩])) ∧
    resultUnused (gradeLanguageImplementation defaultConfig (.ok (.vObj .nil))
        [⟨"a.js", "i18n.t('x')"⟩, ⟨"b.js", ">Hello World<"⟩])
        = resultUnused (gradeLanguageImplementation defaultConfig (.ok (.vObj .nil))
        [⟨"b.js", ">Hello World<"⟩, ⟨"a.js", "i18n.t('x')"⟩]) :=
  claim9_scan_order_irrelevant defaultConfig (.ok (.vObj .nil))
    [⟨"a.js", "i18n.t('x')"⟩, ⟨"b.js", ">Hello World<"⟩]
    [⟨"b.js", ">Hello World<"⟩, ⟨"a.js", "i18n.t('x')"⟩]
    (List.Perm.swap _ _ _)

/-! ## Claim C2 -/

/-- C2 as stated is false at concrete inputs, in both directions.
Forward: for the document `{"a.b": "x"}` — nested mappings with string
leaves, but a mapping key containing a dot — `"a.b"` is extracted yet
`resolveKey` splits it into two segments and fails.  Backward: for
`{a: {b: "x"}}` the non-extracted path `"a"` resolves to the defined
sub-document. -/
theorem claim2_counterexample :
    ("a.b" ∈ extractAllKeys (.vObj (.cons "a.b" (.vStr "x") .nil)) "" ∧
      resolveKey (.vObj (.cons "a.b" (.vStr "x") .nil)) "a.b" = none) ∧
    (resolveKey (.vObj (.cons "a" (.vObj (.cons "b" (.vStr "x") .nil)) .nil)) "a"
        = some (.vObj (.cons "b" (.vStr "x") .nil)) ∧
      "a" ∉ extractAllKeys (.vObj (.cons "a" (.vObj (.cons "b" (.vStr "x") .nil)) .nil)) "") := by
  refine ⟨⟨?_, rfl⟩, rfl, ?_⟩
  · show "a.b" ∈ ["a.b"]
    simp
  · show "a" ∉ ["a.b"]
    simp

/-- C2 amended: for every translation document whose mapping keys are
non-empty, contain no `.`, and are not repeated within their mapping,
every key in `extractAllKeys(D)` resolves to a defined value.  The
converse direction of the claim is dropped: a non-empty dot-delimited
path outside `extractAllKeys(D)` may still resolve to a defined value
(for instance every proper prefix of an extracted key resolves to an
interior node, as the counterexample shows concretely). -/
theorem claim2_extract_resolve_roundtrip :
    ∀ (doc : JSValue), wfDoc doc = true →
      ∀ K ∈ extractAllKeys doc "", (resolveKey doc K).isSome = true :=
  extractAllKeys_resolves

/-- Witness for the amended C2 at a concrete document. -/
theorem claim2_extract_resolve_roundtrip_witness :
    (resolveKey (.vObj (.cons "screen"
        (.vObj (.cons "title" (.vStr "T")
          (.cons "items" (.vArr (.cons (.vObj (.cons "label" (.vStr "L") .nil)) .nil)) .nil)))
        .nil)) "screen.items.0.label").isSome = true :=
  claim2_extract_resolve_roundtrip
    (.vObj (.cons "screen"
      (.vObj (.cons "title" (.vStr "T")
        (.cons "items" (.vArr (.cons (.vObj (.cons "label" (.vStr "L") .nil)) .nil)) .nil)))
      .nil))
    (by decide) "screen.items.0.label" (by decide)

end LangGrader
